import Mathlib

/-
Verification of the Redis caching layer of the portkey-rhoai demo repository
(src/demos/caching/redis_caching_demo.py together with src/demos/config.py).

The Python code is shallowly embedded:
* JSON values are the inductive type Json (floats do not occur in the
  modelled requests and are outside the model).
* json.dumps (default separators, ensure_ascii=True, including the named
  control escapes, the \uXXXX escapes and surrogate pairs for astral
  characters) is the function dumps; sort_keys=True is modelled by the
  recursive key-sorting pass sortKeys applied before dumping.
* json.loads is modelled by the executable reader loads, a strict reader of
  the exact dumps output format; the development proves loads (dumps j) = j.
* The SHA-256 hex digest of RedisCache.get_cache_key is an explicit function
  parameter of the embedding (hash : List Char → String); claims about key
  collisions hold under the standing idealization that the digest is
  injective, which is exactly the spec's "with overwhelming probability"
  caveat.
* The Redis store is an association list of (key, value, ttl) triples;
  GET/SETEX/SCAN+DEL are storeGet, storeSetex and redisClear.  Expiry
  enforcement is delegated to the store and no time passes inside the
  modelled call sequences.
* Python exceptions are Except values; the try/except blocks of
  RedisCache.get are mirrored by redisGetBody/redisCacheGet, and exceptions
  of make_cached_chat_request surface in the result field of CallOut while
  the store field carries the store state at propagation time.
-/

set_option linter.unusedVariables false

/-- JSON values as produced by response.model_dump() and consumed by
json.dumps / json.loads in the demo.  Object entries keep insertion order,
exactly like Python dicts. -/
inductive Json where
  | null
  | bool (b : Bool)
  | int (n : Int)
  | str (s : String)
  | arr (elems : List Json)
  | obj (entries : List (String × Json))

/-- Python truthiness of a JSON value (bool(x) for the corresponding Python
value), used by the line "if cached_response:" of make_cached_chat_request. -/
def jsonTruthy : Json → Bool
  | .null => false
  | .bool b => b
  | .int n => n != 0
  | .str s => s != ""
  | .arr vs => !vs.isEmpty
  | .obj es => !es.isEmpty

/-- Lowercase hexadecimal digit character, as printed by Python's json
\uXXXX escapes. -/
def hexDigit (n : Nat) : Char := Char.ofNat (if n < 10 then 48 + n else 87 + n)

/-- Four-digit lowercase hex rendering of a code unit below 0x10000. -/
def hex4 (n : Nat) : List Char :=
  [hexDigit (n / 4096 % 16), hexDigit (n / 256 % 16), hexDigit (n / 16 % 16), hexDigit (n % 16)]

/-- Decimal digit character. -/
def digitChar (n : Nat) : Char := Char.ofNat (48 + n)

/-- Decimal digits of a natural number (fuelled; fuel n+1 always suffices). -/
def natDigitsF : Nat → Nat → List Char
  | 0, _ => []
  | f+1, n => if n < 10 then [digitChar n] else natDigitsF f (n / 10) ++ [digitChar (n % 10)]

/-- Decimal digits of a natural number, most significant first. -/
def natDigits (n : Nat) : List Char := natDigitsF (n + 1) n

/-- Python str() of an int, as emitted by json.dumps for integers. -/
def intRepr (n : Int) : List Char :=
  if n < 0 then '-' :: natDigits n.natAbs else natDigits n.toNat

/-- Escape of a single character inside a JSON string literal, following
Python's py_encode_basestring_ascii: backslash and quote escapes, the named
control escapes \b \t \n \f \r, \uXXXX for other characters outside
0x20..0x7e, and surrogate pairs for characters above 0xffff. -/
def escChar (c : Char) : List Char :=
  if c = '\\' then ['\\', '\\']
  else if c = '"' then ['\\', '"']
  else if c.toNat = 8 then ['\\', 'b']
  else if c.toNat = 9 then ['\\', 't']
  else if c.toNat = 10 then ['\\', 'n']
  else if c.toNat = 12 then ['\\', 'f']
  else if c.toNat = 13 then ['\\', 'r']
  else if c.toNat < 32 ∨ 126 < c.toNat then
    if c.toNat ≤ 65535 then '\\' :: 'u' :: hex4 c.toNat
    else
      ('\\' :: 'u' :: hex4 (55296 + (c.toNat - 65536) / 1024)) ++
      ('\\' :: 'u' :: hex4 (56320 + (c.toNat - 65536) % 1024))
  else [c]

/-- Escaped body of a JSON string literal. -/
def escBody : List Char → List Char
  | [] => []
  | c :: cs => escChar c ++ escBody cs

/-- Python json.dumps of a string value (with the surrounding quotes). -/
def escString (s : String) : List Char := '"' :: (escBody s.data ++ ['"'])

mutual
/-- Python json.dumps with the default separators (", " and ": ") and
ensure_ascii=True; object entries are emitted in insertion order (the
sort_keys=True pass is the separate function sortKeys). -/
def dumps : Json → List Char
  | .null => ['n', 'u', 'l', 'l']
  | .bool true => "true".data
  | .bool false => "false".data
  | .int n => intRepr n
  | .str s => escString s
  | .arr vs => '[' :: dumpsArrItems vs
  | .obj es => '{' :: dumpsObjItems es

/-- Items of a dumped array (everything after the opening bracket). -/
def dumpsArrItems : List Json → List Char
  | [] => [']']
  | v :: vs => dumps v ++ dumpsArrTail vs

/-- Remaining items of a dumped array, each preceded by ", ". -/
def dumpsArrTail : List Json → List Char
  | [] => [']']
  | v :: vs => ',' :: ' ' :: (dumps v ++ dumpsArrTail vs)

/-- Entries of a dumped object (everything after the opening brace). -/
def dumpsObjItems : List (String × Json) → List Char
  | [] => ['}']
  | e :: es => escString e.1 ++ ':' :: ' ' :: (dumps e.2 ++ dumpsObjTail es)

/-- Remaining entries of a dumped object, each preceded by ", ". -/
def dumpsObjTail : List (String × Json) → List Char
  | [] => ['}']
  | e :: es => ',' :: ' ' :: (escString e.1 ++ ':' :: ' ' :: (dumps e.2 ++ dumpsObjTail es))
end

/-- dumps packaged as a String (the value handed to SETEX by RedisCache.set). -/
def dumpsStr (j : Json) : String := String.mk (dumps j)

/-- Numeric value of a hex digit character accepted in a \uXXXX escape. -/
def hexVal (c : Char) : Option Nat :=
  if 48 ≤ c.toNat ∧ c.toNat ≤ 57 then some (c.toNat - 48)
  else if 97 ≤ c.toNat ∧ c.toNat ≤ 102 then some (c.toNat - 87)
  else none

/-- Value of a decimal digit character. -/
def digitVal (c : Char) : Nat := c.toNat - 48

/-- Value of a string of decimal digits. -/
def digitsVal (ds : List Char) : Nat := ds.foldl (fun a c => a * 10 + digitVal c) 0

/-- Combined value of four hex digit characters. -/
def hexVal4 (h1 h2 h3 h4 : Char) : Option Nat :=
  match hexVal h1, hexVal h2, hexVal h3, hexVal h4 with
  | some a, some b, some d1, some d0 => some (((a * 16 + b) * 16 + d1) * 16 + d0)
  | _, _, _, _ => none

/-- Decoder of one escape sequence (the input starts right after the
backslash): the two punctuation escapes, the named control escapes, \uXXXX,
and surrogate pairs.  Returns the decoded character and the remaining
input. -/
def decodeEscape : List Char → Option (Char × List Char)
  | 'u' :: h1 :: h2 :: h3 :: h4 :: rest2 =>
    (match hexVal4 h1 h2 h3 h4 with
     | some v =>
       if 55296 ≤ v ∧ v < 56320 then
         match rest2 with
         | '\\' :: 'u' :: g1 :: g2 :: g3 :: g4 :: rest3 =>
           (match hexVal4 g1 g2 g3 g4 with
            | some w =>
              if 56320 ≤ w ∧ w < 57344 then
                some (Char.ofNat (65536 + (v - 55296) * 1024 + (w - 56320)), rest3)
              else none
            | none => none)
         | _ => none
       else if 56320 ≤ v ∧ v < 57344 then none
       else some (Char.ofNat v, rest2)
     | none => none)
  | e :: rest2 =>
    if e = '\\' then some ('\\', rest2)
    else if e = '"' then some ('"', rest2)
    else if e = 'b' then some (Char.ofNat 8, rest2)
    else if e = 't' then some (Char.ofNat 9, rest2)
    else if e = 'n' then some (Char.ofNat 10, rest2)
    else if e = 'f' then some (Char.ofNat 12, rest2)
    else if e = 'r' then some (Char.ofNat 13, rest2)
    else none
  | [] => none

/-- Fuelled reader of a JSON string literal body (after the opening quote):
returns the decoded characters and the input after the closing quote.  One
unit of fuel per decoded character; the callers pass the input length. -/
def parseStringBodyF : Nat → List Char → Option (List Char × List Char)
  | 0, _ => none
  | _+1, [] => none
  | f+1, c :: rest =>
    if c = '"' then some ([], rest)
    else if c = '\\' then
      match decodeEscape rest with
      | some dr => (parseStringBodyF f dr.2).map fun r => (dr.1 :: r.1, r.2)
      | none => none
    else (parseStringBodyF f rest).map fun r => (c :: r.1, r.2)

/-- Reader of a JSON string literal body, fuelled by its own length. -/
def parseString (input : List Char) : Option (List Char × List Char) :=
  parseStringBodyF (input.length + 1) input

mutual
/-- Fuelled reader of a JSON value in the exact dumps format. -/
def parseValue : Nat → List Char → Option (Json × List Char)
  | 0, _ => none
  | _+1, [] => none
  | f+1, c :: rest =>
    if c = 'n' then
      (match rest with | 'u' :: 'l' :: 'l' :: r => some (.null, r) | _ => none)
    else if c = 't' then
      (match rest with | 'r' :: 'u' :: 'e' :: r => some (.bool true, r) | _ => none)
    else if c = 'f' then
      (match rest with | 'a' :: 'l' :: 's' :: 'e' :: r => some (.bool false, r) | _ => none)
    else if c = '"' then
      (parseString rest).map fun r => (.str (String.mk r.1), r.2)
    else if c = '[' then (parseArrItems f rest).map fun r => (Json.arr r.1, r.2)
    else if c = '{' then (parseObjItems f rest).map fun r => (Json.obj r.1, r.2)
    else if c = '-' then
      (let ds := rest.takeWhile Char.isDigit
       if ds.isEmpty then none
       else some (.int (-(digitsVal ds : Int)), rest.dropWhile Char.isDigit))
    else if c.isDigit then
      some (.int ((digitsVal ((c :: rest).takeWhile Char.isDigit) : Nat) : Int),
            (c :: rest).dropWhile Char.isDigit)
    else none

/-- Reader of array items after the opening bracket. -/
def parseArrItems : Nat → List Char → Option (List Json × List Char)
  | 0, _ => none
  | _+1, [] => none
  | f+1, c :: rest =>
    if c = ']' then some ([], rest)
    else
      (parseValue f (c :: rest)).bind fun vr =>
        (parseArrTail f vr.2).map fun tr => (vr.1 :: tr.1, tr.2)

/-- Reader of remaining array items, each preceded by ", ". -/
def parseArrTail : Nat → List Char → Option (List Json × List Char)
  | 0, _ => none
  | f+1, input =>
    match input with
    | ']' :: rest => some ([], rest)
    | ',' :: ' ' :: rest =>
      (parseValue f rest).bind fun vr =>
        (parseArrTail f vr.2).map fun tr => (vr.1 :: tr.1, tr.2)
    | _ => none

/-- Reader of object entries after the opening brace. -/
def parseObjItems : Nat → List Char → Option (List (String × Json) × List Char)
  | 0, _ => none
  | f+1, input =>
    match input with
    | '}' :: rest => some ([], rest)
    | '"' :: rest =>
      (parseString rest).bind fun kr =>
        match kr.2 with
        | ':' :: ' ' :: rest2 =>
          (parseValue f rest2).bind fun vr =>
            (parseObjTail f vr.2).map fun tr => ((String.mk kr.1, vr.1) :: tr.1, tr.2)
        | _ => none
    | _ => none

/-- Reader of remaining object entries, each preceded by ", ". -/
def parseObjTail : Nat → List Char → Option (List (String × Json) × List Char)
  | 0, _ => none
  | f+1, input =>
    match input with
    | '}' :: rest => some ([], rest)
    | ',' :: ' ' :: '"' :: rest =>
      (parseString rest).bind fun kr =>
        match kr.2 with
        | ':' :: ' ' :: rest2 =>
          (parseValue f rest2).bind fun vr =>
            (parseObjTail f vr.2).map fun tr => ((String.mk kr.1, vr.1) :: tr.1, tr.2)
        | _ => none
    | _ => none
end

/-- json.loads, modelled as the strict reader of the canonical dumps format
(the only strings the demo itself ever stores); any other input is a decode
failure, i.e. none. -/
def loads (s : String) : Option Json :=
  match parseValue s.data.length s.data with
  | some (j, []) => some j
  | _ => none

/-- Code-point-wise lexicographic comparison of character lists: exactly the
string comparison Python's sorted() applies to dict keys. -/
def listLeB : List Char → List Char → Bool
  | [], _ => true
  | _ :: _, [] => false
  | a :: as, b :: bs =>
    if a.toNat < b.toNat then true
    else if b.toNat < a.toNat then false
    else listLeB as bs

/-- Python string comparison (≤) on code points. -/
def strLeB (a b : String) : Bool := listLeB a.data b.data

/-- Insert an object entry into a key-sorted entry list. -/
def insertByKey (e : String × Json) : List (String × Json) → List (String × Json)
  | [] => [e]
  | x :: xs => if strLeB e.1 x.1 then e :: x :: xs else x :: insertByKey e xs

/-- Stable sort of object entries by key: the effect of sorted() on dict
items (values are never compared when the keys are distinct) and of
json.dumps(..., sort_keys=True) on one object level. -/
def sortByKey : List (String × Json) → List (String × Json)
  | [] => []
  | e :: es => insertByKey e (sortByKey es)

mutual
/-- Recursive effect of json.dumps(..., sort_keys=True): every object level
has its entries sorted by key; array order is preserved. -/
def sortKeys : Json → Json
  | .arr vs => .arr (sortKeysArr vs)
  | .obj es => .obj (sortByKey (sortKeysEntries es))
  | j => j

/-- sortKeys mapped over array elements. -/
def sortKeysArr : List Json → List Json
  | [] => []
  | v :: vs => sortKeys v :: sortKeysArr vs

/-- sortKeys mapped over the values of object entries. -/
def sortKeysEntries : List (String × Json) → List (String × Json)
  | [] => []
  | e :: es => (e.1, sortKeys e.2) :: sortKeysEntries es
end

/-- A chat message dict as built on line 159 of the demo, with the two
fields role and content. -/
structure Message where
  role : String
  content : String
deriving DecidableEq

/-- The message dict of line 159 as a JSON value (insertion order
role, content). -/
def msgJson (m : Message) : Json :=
  .obj [("role", .str m.role), ("content", .str m.content)]

/-- The key_data dict of RedisCache.get_cache_key (lines 87-92): provider,
model, messages, and the params dict pre-sorted by key as on line 91. -/
def keyData (provider model : String) (messages : List Message)
    (params : List (String × Json)) : Json :=
  .obj [("provider", .str provider), ("model", .str model),
        ("messages", .arr (messages.map msgJson)),
        ("params", .obj (sortByKey params))]

/-- RedisCache.get_cache_key: canonical JSON of key_data with sorted keys,
hashed (the SHA-256 hex digest is the parameter hash), prefixed with the
fixed namespace tag. -/
def getCacheKey (hash : List Char → String) (provider model : String)
    (messages : List Message) (params : List (String × Json)) : String :=
  "llm_cache:" ++ hash (dumps (sortKeys (keyData provider model messages params)))

/-- The Redis store: an association list of (key, stored string, ttl).
The head entry for a key is authoritative; SETEX removes any older entry. -/
abbrev Store := List (String × String × Int)

/-- Redis GET of a raw string value. -/
def storeGet (s : Store) (k : String) : Option String :=
  (s.find? fun e => e.1 == k).map fun e => e.2.1

/-- The TTL recorded for a key (observability of SETEX's expiry argument). -/
def storeGetTtl (s : Store) (k : String) : Option Int :=
  (s.find? fun e => e.1 == k).map fun e => e.2.2

/-- Redis SETEX: store a value with a ttl, overwriting any entry at the key. -/
def storeSetex (s : Store) (k v : String) (ttl : Int) : Store :=
  (k, v, ttl) :: s.filter fun e => e.1 != k

/-- Outcome of the transport layer during RedisCache.get: either the store
answered (with or without a value) or a redis.RedisError was raised. -/
inductive ReadOutcome where
  | avail (r : Option String)
  | down
deriving DecidableEq

/-- Errors of the redis client visible inside RedisCache.get. -/
inductive RedisErr where
  | transport
deriving DecidableEq

/-- json.JSONDecodeError. -/
inductive JsonErr where
  | decode
deriving DecidableEq

/-- self.client.get(cache_key) as an exception-throwing call. -/
def clientGet : ReadOutcome → Except RedisErr (Option String)
  | .avail r => .ok r
  | .down => .error .transport

/-- json.loads as an exception-throwing call. -/
def jsonLoadsE (s : String) : Except JsonErr Json :=
  match loads s with
  | some j => .ok j
  | none => .error .decode

/-- The body of RedisCache.get's try block: get the raw value, and parse it
when it is truthy; either step may raise. -/
def redisGetBody (o : ReadOutcome) : Except (RedisErr ⊕ JsonErr) (Option Json) :=
  match clientGet o with
  | .error e => .error (.inl e)
  | .ok none => .ok none
  | .ok (some s) =>
    if s = "" then .ok none
    else
      match jsonLoadsE s with
      | .error e => .error (.inr e)
      | .ok j => .ok (some j)

/-- RedisCache.get (lines 98-106): the try body with redis.RedisError and
json.JSONDecodeError both caught and turned into None.  Total by
construction: no exception escapes to the caller. -/
def redisCacheGet (o : ReadOutcome) : Option Json :=
  match redisGetBody o with
  | .ok r => r
  | .error _ => none

/-- RedisCache.get against an in-memory store with working transport. -/
def redisGet (store : Store) (k : String) : Option Json :=
  redisCacheGet (.avail (storeGet store k))

/-- Line 111, "ttl = ttl or self.default_ttl": Python's or replaces a falsy
ttl (None, or the int 0) by the default; every other int passes through. -/
def effectiveTtl (defaultTtl : Int) (ttl : Option Int) : Int :=
  match ttl with
  | none => defaultTtl
  | some t => if t = 0 then defaultTtl else t

/-- RedisCache.set (lines 108-114) with working transport: SETEX of the
dumped response under the effective ttl. -/
def redisCacheSet (store : Store) (k : String) (response : Json)
    (ttl : Option Int) (defaultTtl : Int) : Store :=
  storeSetex store k (dumpsStr response) (effectiveTtl defaultTtl ttl)

/-- Python exceptions raised by the subscript/attribute chain
response["choices"][0]["message"]["content"].strip(). -/
inductive PyErr where
  | keyError
  | typeError
  | indexError
  | attributeError
deriving DecidableEq

/-- Python dict subscript d[k]: KeyError when absent, TypeError when the
value is not a dict. -/
def getItemField (j : Json) (k : String) : Except PyErr Json :=
  match j with
  | .obj es =>
    match es.find? fun e => e.1 == k with
    | some e => .ok e.2
    | none => .error .keyError
  | _ => .error .typeError

/-- Python list subscript l[i]: IndexError when out of range, TypeError when
the value is not a list (string indexing also ends in a raise and is folded
into the same error). -/
def getItemIndex (j : Json) (i : Nat) : Except PyErr Json :=
  match j with
  | .arr vs =>
    match vs.get? i with
    | some v => .ok v
    | none => .error .indexError
  | _ => .error .typeError

/-- ASCII whitespace stripped by str.strip() (the demo's contents are
ASCII; wider unicode whitespace is outside the model). -/
def isSpaceB (c : Char) : Bool :=
  c.toNat = 32 || c.toNat = 9 || c.toNat = 10 || c.toNat = 13 || c.toNat = 11 || c.toNat = 12

/-- Python str.strip(). -/
def pyStrip (s : String) : String :=
  String.mk (((s.data.dropWhile isSpaceB).reverse.dropWhile isSpaceB).reverse)

/-- The extraction chain of lines 177 and 191:
x["choices"][0]["message"]["content"].strip(), with each Python exception
surfaced. -/
def extractContent (j : Json) : Except PyErr String :=
  match getItemField j "choices" with
  | .error e => .error e
  | .ok choices =>
    match getItemIndex choices 0 with
    | .error e => .error e
    | .ok c0 =>
      match getItemField c0 "message" with
      | .error e => .error e
      | .ok msg =>
        match getItemField msg "content" with
        | .error e => .error e
        | .ok content =>
          match content with
          | .str s => .ok (pyStrip s)
          | _ => .error .attributeError

/-- An exception escaping make_cached_chat_request: either the upstream
compute call's failure (propagated unchanged) or a Python error from the
extraction chain. -/
inductive CallErr (ε : Type) where
  | computeErr (e : ε)
  | pyErr (e : PyErr)

/-- Observable outcome of one make_cached_chat_request call: the returned
(content, cache_hit) pair or the escaped exception, the store state when
the call ends (for an exception: at propagation time), and how many times
the upstream compute call ran. -/
structure CallOut (ε : Type) where
  result : Except (CallErr ε) (String × Bool)
  store : Store
  computeCalls : Nat

/-- A provider configuration dict from src/demos/config.py. -/
structure ProviderConfig where
  provider : String
  custom_host : String
  model : String
deriving DecidableEq

/-- The cache-miss path of make_cached_chat_request (lines 180-198): run the
upstream call, extract the content, and on use_cache write the response
back (ttl argument None, so RedisCache.set applies the default ttl). -/
def makeCachedMiss {ε : Type} (store : Store) (cacheKey : String)
    (defaultTtl : Int) (useCache : Bool) (compute : Except ε Json) : CallOut ε :=
  match compute with
  | .error e => ⟨.error (.computeErr e), store, 1⟩
  | .ok response =>
    match extractContent response with
    | .error e => ⟨.error (.pyErr e), store, 1⟩
    | .ok content =>
      ⟨.ok (content, false),
       if useCache then redisCacheSet store cacheKey response none defaultTtl else store, 1⟩

/-- make_cached_chat_request (lines 141-198).  The upstream call
client.chat.completions.create is the opaque compute argument; note that
line 175 tests the Python truthiness of the parsed cached response, so a
stored falsy JSON value (e.g. an empty dict) falls through to the miss
path. -/
def makeCachedChatRequest {ε : Type} (hash : List Char → String) (defaultTtl : Int)
    (store : Store) (pc : ProviderConfig) (message : String) (useCache : Bool)
    (compute : Except ε Json) : CallOut ε :=
  let messages := [Message.mk "user" message]
  let params := [("max_tokens", Json.int 100)]
  let cacheKey := getCacheKey hash pc.provider pc.model messages params
  match (if useCache then redisGet store cacheKey else none) with
  | some cached =>
    if jsonTruthy cached then
      match extractContent cached with
      | .ok content => ⟨.ok (content, true), store, 0⟩
      | .error e => ⟨.error (.pyErr e), store, 0⟩
    else makeCachedMiss store cacheKey defaultTtl useCache compute
  | none => makeCachedMiss store cacheKey defaultTtl useCache compute

/-- Fuelled glob matcher for Redis SCAN MATCH patterns ('*' wildcard and
literal characters; fuel pattern+string length always suffices). -/
def globMatchF : Nat → List Char → List Char → Bool
  | 0, _, _ => false
  | _+1, [], s => s.isEmpty
  | f+1, a :: ps, s =>
    if a = '*' then
      globMatchF f ps s ||
        (match s with
         | [] => false
         | _ :: cs => globMatchF f (a :: ps) cs)
    else
      match s with
      | [] => false
      | b :: cs => a == b && globMatchF f ps cs

/-- Redis glob match of a key against a pattern. -/
def globMatch (pattern key : String) : Bool :=
  globMatchF (pattern.data.length + key.data.length + 1) pattern.data key.data

/-- RedisCache.clear (lines 116-127): SCAN + DEL of every key matching the
pattern, returning the number of deleted keys and the remaining store (the
cursor batches of the source are modelled as one complete scan). -/
def redisClear (store : Store) (pattern : String) : Nat × Store :=
  ((store.filter fun e => globMatch pattern e.1).length,
   store.filter fun e => !globMatch pattern e.1)

/-- Boolean list-starts-with (for stating facts about the llm_cache:
namespace). -/
def startsList : List Char → List Char → Bool
  | [], _ => true
  | _ :: _, [] => false
  | a :: ps, b :: cs => a == b && startsList ps cs

/-- Sequential RedisCache.set writes (used to state the invalidation
claim). -/
def writeEntries (store : Store) (entries : List (String × String × Int)) : Store :=
  entries.foldl (fun st e => storeSetex st e.1 e.2.1 e.2.2) store

/-- A Python float that the measurement code produces: either a rational
value or float("inf").  Latencies are represented as exact rationals; the
claims at stake are about the branch structure of the computation, not
floating-point rounding. -/
inductive PySpeed where
  | val (q : ℚ)
  | inf
deriving DecidableEq

/-- Line 231 of run_simple_cache_test:
speedup = time1 / time2 if time2 > 0 else float("inf"). -/
def simpleTestSpeedup (time1 time2 : ℚ) : PySpeed :=
  if time2 > 0 then .val (time1 / time2) else .inf

/-- Line 320 of run_cache_persistence_test: the mean of the latencies after
the first (0 when there are none). -/
def persistenceAvgCached (tailTimes : List ℚ) : ℚ :=
  if tailTimes.length > 0 then tailTimes.sum / tailTimes.length else 0

/-- Line 321 of run_cache_persistence_test:
speedup = first_time / avg_cached_time if avg_cached_time > 0 else 0.
Note the else branch yields the float 0, not float("inf"). -/
def persistenceSpeedup (firstTime : ℚ) (tailTimes : List ℚ) : PySpeed :=
  if persistenceAvgCached tailTimes > 0 then
    .val (firstTime / persistenceAvgCached tailTimes)
  else .val 0

/-- Scalar (non-container) JSON values: the parameter values the demo and
the spec's data model admit (max_tokens, temperature, ...). -/
def jsonScalar : Json → Bool
  | .arr _ => false
  | .obj _ => false
  | _ => true

mutual
/-- Fuel sufficient for parseValue to read the dumps of a value (proof
device; max-based, so it is bounded by the dumped length). -/
def fuelNeed : Json → Nat
  | .arr vs => 1 + fuelNeedItems vs
  | .obj es => 1 + fuelNeedObjItems es
  | _ => 1

/-- Fuel sufficient for parseArrItems on dumped array items. -/
def fuelNeedItems : List Json → Nat
  | [] => 1
  | v :: vs => 1 + max (fuelNeed v) (fuelNeedTail vs)

/-- Fuel sufficient for parseArrTail on dumped array tails. -/
def fuelNeedTail : List Json → Nat
  | [] => 1
  | v :: vs => 1 + max (fuelNeed v) (fuelNeedTail vs)

/-- Fuel sufficient for parseObjItems on dumped object entries. -/
def fuelNeedObjItems : List (String × Json) → Nat
  | [] => 1
  | e :: es => 1 + max (fuelNeed e.2) (fuelNeedObjTail es)

/-- Fuel sufficient for parseObjTail on dumped object entry tails. -/
def fuelNeedObjTail : List (String × Json) → Nat
  | [] => 1
  | e :: es => 1 + max (fuelNeed e.2) (fuelNeedObjTail es)
end

/-- Input tails after which the greedy number reader cannot overrun: empty,
or starting with a non-digit. -/
def numSafe : List Char → Prop
  | [] => True
  | c :: _ => c.isDigit = false

/-- Characters with equal code points are equal. -/
theorem charEqOfToNat {a b : Char} (h : a.toNat = b.toNat) : a = b :=
  Char.eq_of_val_eq (UInt32.eq_of_toBitVec_eq (BitVec.eq_of_toNat_eq h))

/-- Code points of characters avoid the surrogate range and are below
0x110000. -/
theorem charToNatValid (c : Char) : c.toNat < 55296 ∨ (57343 < c.toNat ∧ c.toNat < 1114112) := by
  have h := c.valid
  unfold UInt32.isValidChar Nat.isValidChar at h
  exact h

/-- hexVal undoes hexDigit. -/
theorem hexVal_hexDigit {d : Nat} (h : d < 16) : hexVal (hexDigit d) = some d := by
  interval_cases d <;> decide

/-- digitChar values are digit characters. -/
theorem isDigit_digitChar {d : Nat} (h : d < 10) : (digitChar d).isDigit = true := by
  interval_cases d <;> decide

/-- Code point of a digit character. -/
theorem toNat_digitChar {d : Nat} (h : d < 10) : (digitChar d).toNat = 48 + d := by
  interval_cases d <;> decide

/-- Every character of natDigitsF is a decimal digit. -/
theorem natDigitsF_digits : ∀ f n, n < f → ∀ c ∈ natDigitsF f n, c.isDigit = true := by
  intro f
  induction f with
  | zero => omega
  | succ f ih =>
    intro n hn c hc
    rw [natDigitsF] at hc
    by_cases h10 : n < 10
    · rw [if_pos h10] at hc
      simp only [List.mem_singleton] at hc
      subst hc
      exact isDigit_digitChar h10
    · rw [if_neg h10] at hc
      rcases List.mem_append.mp hc with h | h
      · exact ih (n / 10) (by omega) c h
      · simp only [List.mem_singleton] at h
        subst h
        exact isDigit_digitChar (by omega)

/-- natDigitsF with enough fuel is nonempty. -/
theorem natDigitsF_ne_nil : ∀ f n, n < f → natDigitsF f n ≠ [] := by
  intro f
  induction f with
  | zero => omega
  | succ f ih =>
    intro n hn
    rw [natDigitsF]
    by_cases h10 : n < 10
    · simp [h10]
    · rw [if_neg h10]
      simp

/-- digitsVal over an appended digit list. -/
theorem digitsVal_append (ds : List Char) (d : Char) :
    digitsVal (ds ++ [d]) = digitsVal ds * 10 + digitVal d := by
  unfold digitsVal
  rw [List.foldl_append]
  rfl

/-- digitsVal undoes natDigitsF. -/
theorem digitsVal_natDigitsF : ∀ f n, n < f → digitsVal (natDigitsF f n) = n := by
  intro f
  induction f with
  | zero => omega
  | succ f ih =>
    intro n hn
    rw [natDigitsF]
    by_cases h10 : n < 10
    · rw [if_pos h10]
      show digitsVal [digitChar n] = n
      unfold digitsVal
      simp only [List.foldl_cons, List.foldl_nil]
      unfold digitVal
      rw [toNat_digitChar h10]
      omega
    · rw [if_neg h10]
      rw [digitsVal_append, ih (n / 10) (by omega)]
      unfold digitVal
      rw [toNat_digitChar (by omega)]
      omega

/-- takeWhile of a list of satisfying characters followed by a blocked
tail. -/
theorem takeWhile_append_not {p : Char → Bool} :
    ∀ (xs rest : List Char), (∀ c ∈ xs, p c = true) →
      (∀ c cs, rest = c :: cs → p c = false) →
      (xs ++ rest).takeWhile p = xs ∧ (xs ++ rest).dropWhile p = rest := by
  intro xs
  induction xs with
  | nil =>
    intro rest _ hrest
    constructor
    · cases rest with
      | nil => rfl
      | cons c cs =>
        simp only [List.nil_append, List.takeWhile]
        rw [hrest c cs rfl]
    · cases rest with
      | nil => rfl
      | cons c cs =>
        simp only [List.nil_append, List.dropWhile]
        rw [hrest c cs rfl]
  | cons x xs ih =>
    intro rest hxs hrest
    have hx : p x = true := hxs x (List.mem_cons_self x xs)
    have := ih rest (fun c hc => hxs c (List.mem_cons_of_mem x hc)) hrest
    constructor
    · simp only [List.cons_append, List.takeWhile, hx, List.append_eq]
      rw [this.1]
    · simp only [List.cons_append, List.dropWhile, hx, List.append_eq]
      exact this.2

/-- hexVal4 undoes hex4's digits. -/
theorem hexVal4_hexDigit (n : Nat) :
    hexVal4 (hexDigit (n / 4096 % 16)) (hexDigit (n / 256 % 16))
      (hexDigit (n / 16 % 16)) (hexDigit (n % 16)) =
      some (((n / 4096 % 16 * 16 + n / 256 % 16) * 16 + n / 16 % 16) * 16 + n % 16) := by
  unfold hexVal4
  rw [hexVal_hexDigit (show n / 4096 % 16 < 16 by omega),
      hexVal_hexDigit (show n / 256 % 16 < 16 by omega),
      hexVal_hexDigit (show n / 16 % 16 < 16 by omega),
      hexVal_hexDigit (show n % 16 < 16 by omega)]

/-- decodeEscape undoes a non-surrogate \uXXXX escape. -/
theorem decodeEscape_u (n : Nat) (hlt : n ≤ 65535) (hns : ¬ (55296 ≤ n ∧ n < 57344))
    (t : List Char) :
    decodeEscape ('u' :: hexDigit (n / 4096 % 16) :: hexDigit (n / 256 % 16) ::
      hexDigit (n / 16 % 16) :: hexDigit (n % 16) :: t) = some (Char.ofNat n, t) := by
  rw [decodeEscape]
  rw [hexVal4_hexDigit]
  have hv : ((n / 4096 % 16 * 16 + n / 256 % 16) * 16 + n / 16 % 16) * 16 + n % 16 = n := by
    omega
  rw [hv]
  dsimp only
  rw [if_neg (by omega), if_neg (by omega)]

/-- decodeEscape undoes a surrogate-pair escape. -/
theorem decodeEscape_surr (n hi lo : Nat) (hhi : hi = 55296 + (n - 65536) / 1024)
    (hlo : lo = 56320 + (n - 65536) % 1024) (hge : 65536 ≤ n) (hlt : n < 1114112)
    (t : List Char) :
    decodeEscape ('u' :: hexDigit (hi / 4096 % 16) :: hexDigit (hi / 256 % 16) ::
      hexDigit (hi / 16 % 16) :: hexDigit (hi % 16) :: '\\' :: 'u' ::
      hexDigit (lo / 4096 % 16) :: hexDigit (lo / 256 % 16) ::
      hexDigit (lo / 16 % 16) :: hexDigit (lo % 16) :: t) = some (Char.ofNat n, t) := by
  rw [decodeEscape]
  rw [hexVal4_hexDigit]
  have hv : ((hi / 4096 % 16 * 16 + hi / 256 % 16) * 16 + hi / 16 % 16) * 16 + hi % 16 = hi := by
    omega
  rw [hv]
  dsimp only
  rw [if_pos (show 55296 ≤ hi ∧ hi < 56320 by omega)]
  show (match hexVal4 (hexDigit (lo / 4096 % 16)) (hexDigit (lo / 256 % 16))
      (hexDigit (lo / 16 % 16)) (hexDigit (lo % 16)) with
    | some w =>
      if 56320 ≤ w ∧ w < 57344 then
        some (Char.ofNat (65536 + (hi - 55296) * 1024 + (w - 56320)), t)
      else none
    | none => none) = some (Char.ofNat n, t)
  rw [hexVal4_hexDigit]
  have hw : ((lo / 4096 % 16 * 16 + lo / 256 % 16) * 16 + lo / 16 % 16) * 16 + lo % 16 = lo := by
    omega
  rw [hw]
  dsimp only
  rw [if_pos (show 56320 ≤ lo ∧ lo < 57344 by omega)]
  have hc : 65536 + (hi - 55296) * 1024 + (lo - 56320) = n := by omega
  rw [hc]

/-- Every character either escapes to itself (and is no quote or backslash)
or to a backslash escape that decodeEscape undoes. -/
theorem escChar_decode (c : Char) :
    escChar c = [c] ∧ c ≠ '"' ∧ c ≠ '\\' ∨
      ∃ tl, escChar c = '\\' :: tl ∧ ∀ X, decodeEscape (tl ++ X) = some (c, X) := by
  have hvalid := charToNatValid c
  rw [escChar]
  by_cases h1 : c = '\\'
  · subst h1
    right
    exact ⟨['\\'], by simp, fun X => by simp [decodeEscape]⟩
  rw [if_neg h1]
  by_cases h2 : c = '"'
  · subst h2
    right
    exact ⟨['"'], by simp, fun X => by simp [decodeEscape]⟩
  rw [if_neg h2]
  by_cases h3 : c.toNat = 8
  · rw [if_pos h3]
    right
    refine ⟨['b'], by simp, fun X => ?_⟩
    have hc : c = Char.ofNat 8 := charEqOfToNat (by rw [h3]; decide)
    subst hc
    simp [decodeEscape]
  rw [if_neg h3]
  by_cases h4 : c.toNat = 9
  · rw [if_pos h4]
    right
    refine ⟨['t'], by simp, fun X => ?_⟩
    have hc : c = Char.ofNat 9 := charEqOfToNat (by rw [h4]; decide)
    subst hc
    simp [decodeEscape]
  rw [if_neg h4]
  by_cases h5 : c.toNat = 10
  · rw [if_pos h5]
    right
    refine ⟨['n'], by simp, fun X => ?_⟩
    have hc : c = Char.ofNat 10 := charEqOfToNat (by rw [h5]; decide)
    subst hc
    simp [decodeEscape]
  rw [if_neg h5]
  by_cases h6 : c.toNat = 12
  · rw [if_pos h6]
    right
    refine ⟨['f'], by simp, fun X => ?_⟩
    have hc : c = Char.ofNat 12 := charEqOfToNat (by rw [h6]; decide)
    subst hc
    simp [decodeEscape]
  rw [if_neg h6]
  by_cases h7 : c.toNat = 13
  · rw [if_pos h7]
    right
    refine ⟨['r'], by simp, fun X => ?_⟩
    have hc : c = Char.ofNat 13 := charEqOfToNat (by rw [h7]; decide)
    subst hc
    simp [decodeEscape]
  rw [if_neg h7]
  by_cases h8 : c.toNat < 32 ∨ 126 < c.toNat
  · rw [if_pos h8]
    right
    by_cases h9 : c.toNat ≤ 65535
    · rw [if_pos h9]
      refine ⟨'u' :: hex4 c.toNat, rfl, fun X => ?_⟩
      have key := decodeEscape_u c.toNat h9 (by omega) X
      rw [Char.ofNat_toNat] at key
      simpa [hex4] using key
    · rw [if_neg h9]
      refine ⟨'u' :: hex4 (55296 + (c.toNat - 65536) / 1024) ++
        ('\\' :: 'u' :: hex4 (56320 + (c.toNat - 65536) % 1024)), by simp [hex4], fun X => ?_⟩
      have key := decodeEscape_surr c.toNat _ _ rfl rfl (by omega) (by omega) X
      rw [Char.ofNat_toNat] at key
      simpa [hex4] using key
  · rw [if_neg h8]
    left
    exact ⟨rfl, h2, h1⟩

/-- The escape of a character is at least one character long. -/
theorem escChar_length (c : Char) : 1 ≤ (escChar c).length := by
  rcases escChar_decode c with ⟨h, -, -⟩ | ⟨tl, h, -⟩ <;> simp [h]

/-- Escaping does not shorten a string. -/
theorem escBody_length : ∀ s : List Char, s.length ≤ (escBody s).length := by
  intro s
  induction s with
  | nil => simp [escBody]
  | cons c cs ih =>
    rw [escBody]
    rw [List.length_append, List.length_cons]
    have := escChar_length c
    omega

/-- The fuelled string-body reader undoes escBody. -/
theorem parseStringBodyF_escBody :
    ∀ (s : List Char) (f : Nat), s.length < f → ∀ rest,
      parseStringBodyF f (escBody s ++ '"' :: rest) = some (s, rest) := by
  intro s
  induction s with
  | nil =>
    intro f hf rest
    match f, hf with
    | f'+1, _ =>
      rw [escBody]
      rw [List.nil_append]
      rw [parseStringBodyF]
      rw [if_pos rfl]
  | cons c cs ih =>
    intro f hf rest
    match f, hf with
    | f'+1, hf' =>
      rw [escBody]
      rcases escChar_decode c with ⟨heq, hq, hb⟩ | ⟨tl, heq, hdec⟩
      · rw [heq]
        rw [List.append_assoc, List.singleton_append]
        rw [parseStringBodyF]
        rw [if_neg hq, if_neg hb]
        rw [ih f' (by simp only [List.length_cons] at hf'; omega) rest]
        rfl
      · rw [heq]
        rw [List.append_assoc, List.cons_append]
        rw [parseStringBodyF]
        rw [if_neg (by decide), if_pos rfl]
        rw [hdec (escBody cs ++ '"' :: rest)]
        dsimp only
        rw [ih f' (by simp only [List.length_cons] at hf'; omega) rest]
        rfl

/-- parseString undoes escBody followed by the closing quote. -/
theorem parseString_escBody (s rest : List Char) :
    parseString (escBody s ++ '"' :: rest) = some (s, rest) := by
  unfold parseString
  apply parseStringBodyF_escBody
  have := escBody_length s
  simp only [List.length_append, List.length_cons]
  omega

/-- A digit character differs from any non-digit character. -/
theorem ne_of_isDigit {c x : Char} (hc : c.isDigit = true) (hx : x.isDigit = false) : c ≠ x := by
  intro h
  rw [h, hx] at hc
  cases hc

/-- natDigits is nonempty. -/
theorem natDigits_ne_nil (n : Nat) : natDigits n ≠ [] :=
  natDigitsF_ne_nil (n + 1) n (by omega)

/-- natDigits consists of digit characters. -/
theorem natDigits_digits (n : Nat) : ∀ c ∈ natDigits n, c.isDigit = true :=
  natDigitsF_digits (n + 1) n (by omega)

/-- digitsVal undoes natDigits. -/
theorem digitsVal_natDigits (n : Nat) : digitsVal (natDigits n) = n :=
  digitsVal_natDigitsF (n + 1) n (by omega)

/-- A numSafe tail never starts with a digit. -/
theorem numSafe_blocked {rest : List Char} (h : numSafe rest) :
    ∀ c cs, rest = c :: cs → c.isDigit = false := by
  intro c cs hcs
  subst hcs
  exact h

/-- Every dumped value starts with a character other than the closing
bracket. -/
theorem dumps_head_ne_rbrack (j : Json) : ∃ c cs, dumps j = c :: cs ∧ c ≠ ']' := by
  cases j with
  | null => exact ⟨'n', _, rfl, by decide⟩
  | bool b =>
    cases b
    · exact ⟨'f', _, rfl, by decide⟩
    · exact ⟨'t', _, rfl, by decide⟩
  | int n =>
    show ∃ c cs, intRepr n = c :: cs ∧ c ≠ ']'
    rw [intRepr]
    by_cases hn : n < 0
    · rw [if_pos hn]
      exact ⟨'-', _, rfl, by decide⟩
    · rw [if_neg hn]
      obtain ⟨d, ds, hds⟩ := List.exists_cons_of_ne_nil (natDigits_ne_nil n.toNat)
      refine ⟨d, ds, hds, ?_⟩
      have hd : d.isDigit = true := natDigits_digits n.toNat d (hds ▸ List.mem_cons_self d ds)
      exact ne_of_isDigit hd (by decide)
  | str s => exact ⟨'"', _, rfl, by decide⟩
  | arr vs => exact ⟨'[', _, rfl, by decide⟩
  | obj es => exact ⟨'{', _, rfl, by decide⟩

/-- Array tails are numSafe continuations. -/
theorem numSafe_arrTail (vs : List Json) (rest : List Char) :
    numSafe (dumpsArrTail vs ++ rest) := by
  cases vs with
  | nil => exact (by decide : (']').isDigit = false)
  | cons v vs' => exact (by decide : (',').isDigit = false)

/-- Object tails are numSafe continuations. -/
theorem numSafe_objTail (es : List (String × Json)) (rest : List Char) :
    numSafe (dumpsObjTail es ++ rest) := by
  cases es with
  | nil => exact (by decide : ('}').isDigit = false)
  | cons e es' => exact (by decide : (',').isDigit = false)

/-- fuelNeed is positive. -/
theorem fuelNeed_pos (j : Json) : 0 < fuelNeed j := by
  cases j <;> simp [fuelNeed]

/-- fuelNeedItems is positive. -/
theorem fuelNeedItems_pos (vs : List Json) : 0 < fuelNeedItems vs := by
  cases vs <;> simp [fuelNeedItems]

/-- fuelNeedTail is positive. -/
theorem fuelNeedTail_pos (vs : List Json) : 0 < fuelNeedTail vs := by
  cases vs <;> simp [fuelNeedTail]

/-- fuelNeedObjItems is positive. -/
theorem fuelNeedObjItems_pos (es : List (String × Json)) : 0 < fuelNeedObjItems es := by
  cases es <;> simp [fuelNeedObjItems]

/-- fuelNeedObjTail is positive. -/
theorem fuelNeedObjTail_pos (es : List (String × Json)) : 0 < fuelNeedObjTail es := by
  cases es <;> simp [fuelNeedObjTail]

/-- Shape of parseArrTail after a comma (definitional). -/
theorem parseArrTail_comma (f : Nat) (X : List Char) :
    parseArrTail (f+1) (',' :: ' ' :: X) =
      (parseValue f X).bind fun vr =>
        (parseArrTail f vr.2).map fun tr => (vr.1 :: tr.1, tr.2) := rfl

/-- Shape of parseObjItems on a quoted key (definitional). -/
theorem parseObjItems_quote (f : Nat) (X : List Char) :
    parseObjItems (f+1) ('"' :: X) =
      (parseString X).bind fun kr =>
        match kr.2 with
        | ':' :: ' ' :: rest2 =>
          (parseValue f rest2).bind fun vr =>
            (parseObjTail f vr.2).map fun tr => ((String.mk kr.1, vr.1) :: tr.1, tr.2)
        | _ => none := rfl

/-- Shape of parseObjTail after a comma (definitional). -/
theorem parseObjTail_comma (f : Nat) (X : List Char) :
    parseObjTail (f+1) (',' :: ' ' :: '"' :: X) =
      (parseString X).bind fun kr =>
        match kr.2 with
        | ':' :: ' ' :: rest2 =>
          (parseValue f rest2).bind fun vr =>
            (parseObjTail f vr.2).map fun tr => ((String.mk kr.1, vr.1) :: tr.1, tr.2)
        | _ => none := rfl
/-- Shape of parseValue on a quoted string (definitional). -/
theorem parseValue_quote (f : Nat) (X : List Char) :
    parseValue (f+1) ('"' :: X) =
      (parseString X).map fun r => (Json.str (String.mk r.1), r.2) := rfl

/-- Shape of parseValue on an opening bracket (definitional). -/
theorem parseValue_lbrack (f : Nat) (X : List Char) :
    parseValue (f+1) ('[' :: X) =
      (parseArrItems f X).map fun r => (Json.arr r.1, r.2) := rfl

/-- Shape of parseValue on an opening brace (definitional). -/
theorem parseValue_lbrace (f : Nat) (X : List Char) :
    parseValue (f+1) ('{' :: X) =
      (parseObjItems f X).map fun r => (Json.obj r.1, r.2) := rfl

/-- Shape of parseValue on a minus sign (definitional). -/
theorem parseValue_neg (f : Nat) (X : List Char) :
    parseValue (f+1) ('-' :: X) =
      (let ds := X.takeWhile Char.isDigit
       if ds.isEmpty then none
       else some (.int (-(digitsVal ds : Int)), X.dropWhile Char.isDigit)) := rfl

/-- Shape of parseValue on a digit head. -/
theorem parseValue_digit (f : Nat) (c : Char) (X : List Char) (hc : c.isDigit = true) :
    parseValue (f+1) (c :: X) =
      some (.int ((digitsVal ((c :: X).takeWhile Char.isDigit) : Nat) : Int),
        (c :: X).dropWhile Char.isDigit) := by
  show (if c = 'n' then
      (match X with | 'u' :: 'l' :: 'l' :: r => some (Json.null, r) | _ => none)
    else if c = 't' then
      (match X with | 'r' :: 'u' :: 'e' :: r => some (Json.bool true, r) | _ => none)
    else if c = 'f' then
      (match X with | 'a' :: 'l' :: 's' :: 'e' :: r => some (Json.bool false, r) | _ => none)
    else if c = '"' then (parseString X).map fun r => (Json.str (String.mk r.1), r.2)
    else if c = '[' then (parseArrItems f X).map fun r => (Json.arr r.1, r.2)
    else if c = '{' then (parseObjItems f X).map fun r => (Json.obj r.1, r.2)
    else if c = '-' then
      (let ds := X.takeWhile Char.isDigit
       if ds.isEmpty then none
       else some (.int (-(digitsVal ds : Int)), X.dropWhile Char.isDigit))
    else if c.isDigit then
      some (.int ((digitsVal ((c :: X).takeWhile Char.isDigit) : Nat) : Int),
            (c :: X).dropWhile Char.isDigit)
    else none) = _
  rw [if_neg (ne_of_isDigit hc (by decide)), if_neg (ne_of_isDigit hc (by decide)),
      if_neg (ne_of_isDigit hc (by decide)), if_neg (ne_of_isDigit hc (by decide)),
      if_neg (ne_of_isDigit hc (by decide)), if_neg (ne_of_isDigit hc (by decide)),
      if_neg (ne_of_isDigit hc (by decide)), if_pos hc]

/-- Shape of parseArrItems on a non-bracket head. -/
theorem parseArrItems_cons (f : Nat) (c : Char) (X : List Char) (h : c ≠ ']') :
    parseArrItems (f+1) (c :: X) =
      (parseValue f (c :: X)).bind fun vr =>
        (parseArrTail f vr.2).map fun tr => (vr.1 :: tr.1, tr.2) := by
  show (if c = ']' then some ([], X)
    else (parseValue f (c :: X)).bind fun vr =>
      (parseArrTail f vr.2).map fun tr => (vr.1 :: tr.1, tr.2)) = _
  rw [if_neg h]

/-- The reader undoes dumps: master roundtrip, by induction on fuel, jointly
for values, array items/tails and object items/tails. -/
theorem parse_dumps : ∀ f : Nat,
    (∀ j rest, fuelNeed j ≤ f → numSafe rest →
      parseValue f (dumps j ++ rest) = some (j, rest)) ∧
    (∀ vs rest, fuelNeedItems vs ≤ f → numSafe rest →
      parseArrItems f (dumpsArrItems vs ++ rest) = some (vs, rest)) ∧
    (∀ vs rest, fuelNeedTail vs ≤ f → numSafe rest →
      parseArrTail f (dumpsArrTail vs ++ rest) = some (vs, rest)) ∧
    (∀ es rest, fuelNeedObjItems es ≤ f → numSafe rest →
      parseObjItems f (dumpsObjItems es ++ rest) = some (es, rest)) ∧
    (∀ es rest, fuelNeedObjTail es ≤ f → numSafe rest →
      parseObjTail f (dumpsObjTail es ++ rest) = some (es, rest)) := by
  intro f
  induction f with
  | zero =>
    refine ⟨fun j _ hf _ => absurd hf (by have := fuelNeed_pos j; omega),
      fun vs _ hf _ => absurd hf (by have := fuelNeedItems_pos vs; omega),
      fun vs _ hf _ => absurd hf (by have := fuelNeedTail_pos vs; omega),
      fun es _ hf _ => absurd hf (by have := fuelNeedObjItems_pos es; omega),
      fun es _ hf _ => absurd hf (by have := fuelNeedObjTail_pos es; omega)⟩
  | succ f ih =>
    obtain ⟨ihP, ihQ, ihR, ihS, ihT⟩ := ih
    refine ⟨?_, ?_, ?_, ?_, ?_⟩
    · intro j rest hf hrest
      cases j with
      | null => rfl
      | bool b => cases b <;> rfl
      | int n =>
        show parseValue (f+1) (intRepr n ++ rest) = some (.int n, rest)
        rw [intRepr]
        by_cases hn : n < 0
        · rw [if_pos hn]
          rw [List.cons_append]
          rw [parseValue_neg]
          dsimp only
          obtain ⟨htake, hdrop⟩ := takeWhile_append_not (natDigits n.natAbs) rest
            (natDigits_digits _) (numSafe_blocked hrest)
          rw [htake, hdrop]
          rw [if_neg (by simp only [List.isEmpty_iff]; exact natDigits_ne_nil _)]
          rw [digitsVal_natDigits]
          have hval : -((n.natAbs : Nat) : Int) = n := by omega
          rw [hval]
        · rw [if_neg hn]
          obtain ⟨d, ds, hds⟩ := List.exists_cons_of_ne_nil (natDigits_ne_nil n.toNat)
          have hd : d.isDigit = true := natDigits_digits n.toNat d (hds ▸ List.mem_cons_self d ds)
          rw [hds, List.cons_append]
          rw [parseValue_digit f d (ds ++ rest) hd]
          rw [← List.cons_append, ← hds]
          obtain ⟨htake, hdrop⟩ := takeWhile_append_not (natDigits n.toNat) rest
            (natDigits_digits _) (numSafe_blocked hrest)
          rw [htake, hdrop]
          rw [digitsVal_natDigits]
          have hval : ((n.toNat : Nat) : Int) = n := by omega
          rw [hval]
      | str s =>
        show parseValue (f+1) (escString s ++ rest) = some (.str s, rest)
        rw [escString]
        rw [List.cons_append]
        rw [parseValue_quote]
        rw [List.append_assoc, List.singleton_append]
        rw [parseString_escBody]
        rfl
      | arr vs =>
        show parseValue (f+1) (('[' :: dumpsArrItems vs) ++ rest) = some (.arr vs, rest)
        rw [List.cons_append]
        rw [parseValue_lbrack]
        rw [ihQ vs rest (by rw [fuelNeed] at hf; omega) hrest]
        rfl
      | obj es =>
        show parseValue (f+1) (('{' :: dumpsObjItems es) ++ rest) = some (.obj es, rest)
        rw [List.cons_append]
        rw [parseValue_lbrace]
        rw [ihS es rest (by rw [fuelNeed] at hf; omega) hrest]
        rfl
    · intro vs rest hf hrest
      cases vs with
      | nil => rfl
      | cons v vs' =>
        show parseArrItems (f+1) ((dumps v ++ dumpsArrTail vs') ++ rest) = some (v :: vs', rest)
        rw [List.append_assoc]
        obtain ⟨c, cs, hcs, hne⟩ := dumps_head_ne_rbrack v
        rw [hcs, List.cons_append]
        rw [parseArrItems_cons f c (cs ++ (dumpsArrTail vs' ++ rest)) hne]
        rw [← List.cons_append, ← hcs]
        have hmax1 : fuelNeed v ≤ f := by
          rw [fuelNeedItems] at hf
          have := Nat.le_max_left (fuelNeed v) (fuelNeedTail vs')
          omega
        have hmax2 : fuelNeedTail vs' ≤ f := by
          rw [fuelNeedItems] at hf
          have := Nat.le_max_right (fuelNeed v) (fuelNeedTail vs')
          omega
        rw [ihP v (dumpsArrTail vs' ++ rest) hmax1 (numSafe_arrTail vs' rest)]
        dsimp only [Option.bind]
        rw [ihR vs' rest hmax2 hrest]
        rfl
    · intro vs rest hf hrest
      cases vs with
      | nil => rfl
      | cons v vs' =>
        show parseArrTail (f+1) ((',' :: ' ' :: (dumps v ++ dumpsArrTail vs')) ++ rest) =
          some (v :: vs', rest)
        rw [List.cons_append, List.cons_append, List.append_assoc]
        rw [parseArrTail_comma]
        have hmax1 : fuelNeed v ≤ f := by
          rw [fuelNeedTail] at hf
          have := Nat.le_max_left (fuelNeed v) (fuelNeedTail vs')
          omega
        have hmax2 : fuelNeedTail vs' ≤ f := by
          rw [fuelNeedTail] at hf
          have := Nat.le_max_right (fuelNeed v) (fuelNeedTail vs')
          omega
        rw [ihP v (dumpsArrTail vs' ++ rest) hmax1 (numSafe_arrTail vs' rest)]
        dsimp only [Option.bind]
        rw [ihR vs' rest hmax2 hrest]
        rfl
    · intro es rest hf hrest
      cases es with
      | nil => rfl
      | cons e es' =>
        show parseObjItems (f+1)
          ((escString e.1 ++ ':' :: ' ' :: (dumps e.2 ++ dumpsObjTail es')) ++ rest) =
          some (e :: es', rest)
        rw [escString]
        simp only [List.cons_append, List.append_assoc]
        rw [parseObjItems_quote]
        simp only [List.nil_append]
        rw [parseString_escBody]
        show ((parseValue f (dumps e.2 ++ (dumpsObjTail es' ++ rest))).bind fun vr =>
          Option.map (fun tr => ((e.1, vr.1) :: tr.1, tr.2)) (parseObjTail f vr.2)) =
          some (e :: es', rest)
        have hmax1 : fuelNeed e.2 ≤ f := by
          rw [fuelNeedObjItems] at hf
          have := Nat.le_max_left (fuelNeed e.2) (fuelNeedObjTail es')
          omega
        have hmax2 : fuelNeedObjTail es' ≤ f := by
          rw [fuelNeedObjItems] at hf
          have := Nat.le_max_right (fuelNeed e.2) (fuelNeedObjTail es')
          omega
        rw [ihP e.2 (dumpsObjTail es' ++ rest) hmax1 (numSafe_objTail es' rest)]
        dsimp only [Option.bind]
        rw [ihT es' rest hmax2 hrest]
        rfl
    · intro es rest hf hrest
      cases es with
      | nil => rfl
      | cons e es' =>
        show parseObjTail (f+1)
          ((',' :: ' ' :: (escString e.1 ++ ':' :: ' ' :: (dumps e.2 ++ dumpsObjTail es'))) ++ rest) =
          some (e :: es', rest)
        rw [escString]
        simp only [List.cons_append, List.append_assoc]
        rw [parseObjTail_comma]
        simp only [List.nil_append]
        rw [parseString_escBody]
        show ((parseValue f (dumps e.2 ++ (dumpsObjTail es' ++ rest))).bind fun vr =>
          Option.map (fun tr => ((e.1, vr.1) :: tr.1, tr.2)) (parseObjTail f vr.2)) =
          some (e :: es', rest)
        have hmax1 : fuelNeed e.2 ≤ f := by
          rw [fuelNeedObjTail] at hf
          have := Nat.le_max_left (fuelNeed e.2) (fuelNeedObjTail es')
          omega
        have hmax2 : fuelNeedObjTail es' ≤ f := by
          rw [fuelNeedObjTail] at hf
          have := Nat.le_max_right (fuelNeed e.2) (fuelNeedObjTail es')
          omega
        rw [ihP e.2 (dumpsObjTail es' ++ rest) hmax1 (numSafe_objTail es' rest)]
        dsimp only [Option.bind]
        rw [ihT es' rest hmax2 hrest]
        rfl

/-- Induction over Json with element-wise hypotheses for arrays and
objects (by strong induction on size). -/
theorem jsonInduction (motive : Json → Prop)
    (hnull : motive .null) (hbool : ∀ b, motive (.bool b)) (hint : ∀ n, motive (.int n))
    (hstr : ∀ s, motive (.str s))
    (harr : ∀ vs, (∀ v ∈ vs, motive v) → motive (.arr vs))
    (hobj : ∀ es, (∀ e ∈ es, motive e.2) → motive (.obj es)) :
    ∀ j, motive j := by
  have key : ∀ n j, sizeOf j ≤ n → motive j := by
    intro n
    induction n with
    | zero => intro j hj; cases j <;> simp at hj
    | succ n ih =>
      intro j hj
      cases j with
      | null => exact hnull
      | bool b => exact hbool b
      | int m => exact hint m
      | str s => exact hstr s
      | arr vs =>
        refine harr vs fun v hv => ih v ?_
        have h1 := List.sizeOf_lt_of_mem hv
        have h2 : sizeOf (Json.arr vs) = 1 + sizeOf vs := by simp
        omega
      | obj es =>
        refine hobj es fun e he => ih e.2 ?_
        have h1 := List.sizeOf_lt_of_mem he
        have h2 : sizeOf (Json.obj es) = 1 + sizeOf es := by simp
        have h3 : sizeOf e.2 < sizeOf e := by
          obtain ⟨k, v⟩ := e
          simp
        omega
  exact fun j => key (sizeOf j) j (le_refl _)

/-- A dumped value is nonempty. -/
theorem dumps_length_pos (j : Json) : 1 ≤ (dumps j).length := by
  obtain ⟨c, cs, hcs, -⟩ := dumps_head_ne_rbrack j
  rw [hcs]
  simp

/-- A dumped array tail is nonempty. -/
theorem dumpsArrTail_length_pos (vs : List Json) : 1 ≤ (dumpsArrTail vs).length := by
  cases vs <;> simp [dumpsArrTail]

/-- A dumped object tail is nonempty. -/
theorem dumpsObjTail_length_pos (es : List (String × Json)) : 1 ≤ (dumpsObjTail es).length := by
  cases es <;> simp [dumpsObjTail]

/-- The parser fuel needed for array items and tails is bounded by the
dumped length. -/
theorem fuelNeedArr_le (vs : List Json) (h : ∀ v ∈ vs, fuelNeed v ≤ (dumps v).length) :
    fuelNeedItems vs ≤ (dumpsArrItems vs).length ∧
      fuelNeedTail vs ≤ (dumpsArrTail vs).length := by
  induction vs with
  | nil => exact ⟨by simp [fuelNeedItems, dumpsArrItems], by simp [fuelNeedTail, dumpsArrTail]⟩
  | cons v vs ih =>
    have hv := h v (List.mem_cons_self v vs)
    obtain ⟨-, ihT⟩ := ih fun w hw => h w (List.mem_cons_of_mem v hw)
    have hA := dumps_length_pos v
    have hB := dumpsArrTail_length_pos vs
    have hmax : max (fuelNeed v) (fuelNeedTail vs) ≤ (dumps v).length + (dumpsArrTail vs).length - 1 := by
      rw [Nat.max_le]
      omega
    constructor
    · rw [fuelNeedItems, dumpsArrItems]
      simp only [List.length_append]
      omega
    · rw [fuelNeedTail, dumpsArrTail]
      simp only [List.length_cons, List.length_append]
      omega

/-- The parser fuel needed for object entries and tails is bounded by the
dumped length. -/
theorem fuelNeedObj_le (es : List (String × Json))
    (h : ∀ e ∈ es, fuelNeed e.2 ≤ (dumps e.2).length) :
    fuelNeedObjItems es ≤ (dumpsObjItems es).length ∧
      fuelNeedObjTail es ≤ (dumpsObjTail es).length := by
  induction es with
  | nil => exact ⟨by simp [fuelNeedObjItems, dumpsObjItems], by simp [fuelNeedObjTail, dumpsObjTail]⟩
  | cons e es ih =>
    have hv := h e (List.mem_cons_self e es)
    obtain ⟨-, ihT⟩ := ih fun w hw => h w (List.mem_cons_of_mem e hw)
    have hA := dumps_length_pos e.2
    have hB := dumpsObjTail_length_pos es
    have hmax : max (fuelNeed e.2) (fuelNeedObjTail es) ≤
        (dumps e.2).length + (dumpsObjTail es).length - 1 := by
      rw [Nat.max_le]
      omega
    constructor
    · rw [fuelNeedObjItems, dumpsObjItems]
      simp only [List.length_append, List.length_cons]
      omega
    · rw [fuelNeedObjTail, dumpsObjTail]
      simp only [List.length_append, List.length_cons]
      omega

/-- The fuel the reader needs is bounded by the length of the dumped
input. -/
theorem fuelNeed_le_length : ∀ j : Json, fuelNeed j ≤ (dumps j).length := by
  refine jsonInduction _ (by decide) (fun b => by cases b <;> decide)
    (fun n => dumps_length_pos (Json.int n)) (fun s => dumps_length_pos (Json.str s)) ?_ ?_
  · intro vs h
    rw [fuelNeed]
    show 1 + fuelNeedItems vs ≤ ('[' :: dumpsArrItems vs).length
    rw [List.length_cons]
    have := (fuelNeedArr_le vs h).1
    omega
  · intro es h
    rw [fuelNeed]
    show 1 + fuelNeedObjItems es ≤ ('{' :: dumpsObjItems es).length
    rw [List.length_cons]
    have := (fuelNeedObj_le es h).1
    omega

/-- json.loads undoes json.dumps. -/
theorem loads_dumps (j : Json) : loads (dumpsStr j) = some j := by
  have h := (parse_dumps (dumps j).length).1 j [] (fuelNeed_le_length j) trivial
  rw [List.append_nil] at h
  show (match parseValue (dumps j).length (dumps j) with
    | some (j', []) => some j'
    | _ => none) = some j
  rw [h]

/-- dumps is injective. -/
theorem dumps_inj {a b : Json} (h : dumps a = dumps b) : a = b := by
  have ha := loads_dumps a
  have hb := loads_dumps b
  unfold dumpsStr at ha hb
  rw [h] at ha
  exact Option.some.inj (ha.symm.trans hb)

/-- listLeB is total. -/
theorem listLeB_total : ∀ a b : List Char, listLeB a b = true ∨ listLeB b a = true := by
  intro a
  induction a with
  | nil => intro b; left; rfl
  | cons x xs ih =>
    intro b
    cases b with
    | nil => right; rfl
    | cons y ys =>
      rcases Nat.lt_trichotomy x.toNat y.toNat with h | h | h
      · left; simp [listLeB, h]
      · have h1 : ¬ x.toNat < y.toNat := by omega
        have h2 : ¬ y.toNat < x.toNat := by omega
        rcases ih ys with hc | hc
        · left; simp [listLeB, h1, h2, hc]
        · right; simp [listLeB, h1, h2, hc]
      · right; simp [listLeB, h]

/-- listLeB is transitive. -/
theorem listLeB_trans : ∀ a b c : List Char,
    listLeB a b = true → listLeB b c = true → listLeB a c = true := by
  intro a
  induction a with
  | nil => intro b c _ _; rfl
  | cons x xs ih =>
    intro b c hab hbc
    cases b with
    | nil => simp [listLeB] at hab
    | cons y ys =>
      cases c with
      | nil => simp [listLeB] at hbc
      | cons z zs =>
        rcases Nat.lt_trichotomy x.toNat y.toNat with h1 | h1 | h1
        · rcases Nat.lt_trichotomy y.toNat z.toNat with h2 | h2 | h2
          · simp [listLeB, show x.toNat < z.toNat by omega]
          · simp [listLeB, show x.toNat < z.toNat by omega]
          · simp [listLeB, show ¬ y.toNat < z.toNat by omega, h2] at hbc
        · rcases Nat.lt_trichotomy y.toNat z.toNat with h2 | h2 | h2
          · simp [listLeB, show x.toNat < z.toNat by omega]
          · simp only [listLeB, if_neg (show ¬ x.toNat < y.toNat by omega),
              if_neg (show ¬ y.toNat < x.toNat by omega)] at hab
            simp only [listLeB, if_neg (show ¬ y.toNat < z.toNat by omega),
              if_neg (show ¬ z.toNat < y.toNat by omega)] at hbc
            simp only [listLeB, if_neg (show ¬ x.toNat < z.toNat by omega),
              if_neg (show ¬ z.toNat < x.toNat by omega)]
            exact ih ys zs hab hbc
          · simp [listLeB, show ¬ y.toNat < z.toNat by omega, h2] at hbc
        · simp [listLeB, show ¬ x.toNat < y.toNat by omega, h1] at hab

/-- listLeB is antisymmetric. -/
theorem listLeB_antisymm : ∀ a b : List Char,
    listLeB a b = true → listLeB b a = true → a = b := by
  intro a
  induction a with
  | nil =>
    intro b hab hba
    cases b with
    | nil => rfl
    | cons y ys => simp [listLeB] at hba
  | cons x xs ih =>
    intro b hab hba
    cases b with
    | nil => simp [listLeB] at hab
    | cons y ys =>
      rcases Nat.lt_trichotomy x.toNat y.toNat with h1 | h1 | h1
      · simp [listLeB, show ¬ y.toNat < x.toNat by omega, h1] at hba
      · simp only [listLeB, if_neg (show ¬ x.toNat < y.toNat by omega),
          if_neg (show ¬ y.toNat < x.toNat by omega)] at hab hba
        rw [charEqOfToNat h1, ih ys hab hba]
      · simp [listLeB, show ¬ x.toNat < y.toNat by omega, h1] at hab

/-- strLeB is total. -/
theorem strLeB_total (a b : String) : strLeB a b = true ∨ strLeB b a = true :=
  listLeB_total a.data b.data

/-- strLeB is transitive. -/
theorem strLeB_trans {a b c : String} (h1 : strLeB a b = true) (h2 : strLeB b c = true) :
    strLeB a c = true :=
  listLeB_trans a.data b.data c.data h1 h2

/-- strLeB is antisymmetric. -/
theorem strLeB_antisymm {a b : String} (h1 : strLeB a b = true) (h2 : strLeB b a = true) :
    a = b := by
  obtain ⟨da⟩ := a
  obtain ⟨db⟩ := b
  exact congrArg String.mk (listLeB_antisymm da db h1 h2)

/-- Inserting into a list is a permutation of consing. -/
theorem insertByKey_perm (e : String × Json) :
    ∀ l : List (String × Json), (insertByKey e l).Perm (e :: l) := by
  intro l
  induction l with
  | nil => exact List.Perm.refl _
  | cons x xs ih =>
    rw [insertByKey]
    by_cases h : strLeB e.1 x.1 = true
    · rw [if_pos h]
    · rw [if_neg h]
      exact (ih.cons x).trans (List.Perm.swap e x xs)

/-- sortByKey permutes its input. -/
theorem sortByKey_perm : ∀ l : List (String × Json), (sortByKey l).Perm l := by
  intro l
  induction l with
  | nil => exact List.Perm.refl _
  | cons e es ih =>
    rw [sortByKey]
    exact (insertByKey_perm e (sortByKey es)).trans (ih.cons e)

/-- Inserting into a key-sorted list keeps it key-sorted. -/
theorem insertByKey_sorted (e : String × Json) :
    ∀ l : List (String × Json),
      l.Pairwise (fun a b => strLeB a.1 b.1 = true) →
      (insertByKey e l).Pairwise (fun a b => strLeB a.1 b.1 = true) := by
  intro l
  induction l with
  | nil => exact fun _ => List.pairwise_singleton _ e
  | cons x xs ih =>
    intro hl
    rcases List.pairwise_cons.mp hl with ⟨hx, hxs⟩
    rw [insertByKey]
    by_cases h : strLeB e.1 x.1 = true
    · rw [if_pos h]
      refine List.pairwise_cons.mpr ⟨?_, hl⟩
      intro y hy
      rcases List.mem_cons.mp hy with hy | hy
      · rw [hy]; exact h
      · exact strLeB_trans h (hx y hy)
    · rw [if_neg h]
      refine List.pairwise_cons.mpr ⟨?_, ih hxs⟩
      intro y hy
      have hy2 := (insertByKey_perm e xs).mem_iff.mp hy
      rcases List.mem_cons.mp hy2 with hy2 | hy2
      · rw [hy2]
        rcases strLeB_total x.1 e.1 with ht | ht
        · exact ht
        · exact absurd ht h
      · exact hx y hy2

/-- sortByKey produces a key-sorted list. -/
theorem sortByKey_sorted : ∀ l : List (String × Json),
    (sortByKey l).Pairwise (fun a b => strLeB a.1 b.1 = true) := by
  intro l
  induction l with
  | nil => exact List.Pairwise.nil
  | cons e es ih =>
    rw [sortByKey]
    exact insertByKey_sorted e (sortByKey es) ih

/-- Two key-sorted permutations of each other with duplicate-free keys are
equal. -/
theorem sorted_perm_nodup_eq : ∀ l₁ l₂ : List (String × Json),
    l₁.Pairwise (fun a b => strLeB a.1 b.1 = true) →
    l₂.Pairwise (fun a b => strLeB a.1 b.1 = true) →
    l₁.Perm l₂ → (l₁.map Prod.fst).Nodup → l₁ = l₂ := by
  intro l₁
  induction l₁ with
  | nil =>
    intro l₂ _ _ hp _
    exact (hp.symm.eq_nil).symm
  | cons a l₁ ih =>
    intro l₂ hs1 hs2 hp hn
    cases l₂ with
    | nil => exact absurd hp.eq_nil (by simp)
    | cons b l₂ =>
      rcases List.pairwise_cons.mp hs1 with ⟨ha1, hs1'⟩
      rcases List.pairwise_cons.mp hs2 with ⟨hb2, hs2'⟩
      rw [List.map_cons] at hn
      rcases List.nodup_cons.mp hn with ⟨hna, hn'⟩
      have hab : a = b := by
        rcases List.mem_cons.mp (hp.mem_iff.mp (List.mem_cons_self a l₁)) with h | h
        · exact h
        · rcases List.mem_cons.mp (hp.symm.mem_iff.mp (List.mem_cons_self b l₂)) with h2 | h2
          · exact h2.symm
          · exfalso
            have h3 : strLeB a.1 b.1 = true := ha1 b h2
            have h4 : strLeB b.1 a.1 = true := hb2 a h
            have h5 : a.1 = b.1 := strLeB_antisymm h3 h4
            exact hna (h5 ▸ List.mem_map_of_mem Prod.fst h2)
      subst hab
      have := ih l₂ hs1' hs2' hp.cons_inv hn'
      rw [this]

/-- sortByKey sends permutations with duplicate-free keys to one canonical
list. -/
theorem sortByKey_eq_of_perm {l₁ l₂ : List (String × Json)} (hp : l₁.Perm l₂)
    (hn : (l₁.map Prod.fst).Nodup) : sortByKey l₁ = sortByKey l₂ :=
  sorted_perm_nodup_eq _ _ (sortByKey_sorted l₁) (sortByKey_sorted l₂)
    ((sortByKey_perm l₁).trans (hp.trans (sortByKey_perm l₂).symm))
    (((sortByKey_perm l₁).map Prod.fst).symm.nodup hn)

/-- C1: Fingerprint determinism.  Two requests with the same provider, model
and message sequence whose parameter key/value pairs are the same set
(differing only in the insertion order of the mapping, hence with
duplicate-free keys) receive the same cache key from
RedisCache.get_cache_key, whatever the digest function is. -/
theorem C1_fingerprint_determinism (hash : List Char → String) (provider model : String)
    (messages : List Message) (params₁ params₂ : List (String × Json))
    (hperm : params₁.Perm params₂) (hnodup : (params₁.map Prod.fst).Nodup) :
    getCacheKey hash provider model messages params₁ =
      getCacheKey hash provider model messages params₂ := by
  have hs : sortByKey params₁ = sortByKey params₂ := sortByKey_eq_of_perm hperm hnodup
  unfold getCacheKey keyData
  rw [hs]

/-- Witness for C1 at a concrete pair of parameter lists differing only in
insertion order. -/
theorem C1_fingerprint_determinism_witness :
    getCacheKey String.mk "ollama" "llama3" [Message.mk "user" "hi"]
        [("max_tokens", Json.int 100), ("temperature", Json.int 1)] =
      getCacheKey String.mk "ollama" "llama3" [Message.mk "user" "hi"]
        [("temperature", Json.int 1), ("max_tokens", Json.int 100)] :=
  C1_fingerprint_determinism String.mk "ollama" "llama3" [Message.mk "user" "hi"]
    [("max_tokens", Json.int 100), ("temperature", Json.int 1)]
    [("temperature", Json.int 1), ("max_tokens", Json.int 100)]
    (List.Perm.swap ("temperature", Json.int 1) ("max_tokens", Json.int 100) [])
    (by simp)

/-- Equal cache keys force equal canonical key_data serializations (for an
injective digest). -/
theorem getCacheKey_eq_imp {hash : List Char → String}
    (hinj : ∀ a b : List Char, hash a = hash b → a = b)
    {p₁ m₁ : String} {ms₁ : List Message} {ps₁ : List (String × Json)}
    {p₂ m₂ : String} {ms₂ : List Message} {ps₂ : List (String × Json)}
    (h : getCacheKey hash p₁ m₁ ms₁ ps₁ = getCacheKey hash p₂ m₂ ms₂ ps₂) :
    sortKeys (keyData p₁ m₁ ms₁ ps₁) = sortKeys (keyData p₂ m₂ ms₂ ps₂) := by
  unfold getCacheKey at h
  have h2 := congrArg String.data h
  rw [String.data_append, String.data_append] at h2
  have h3 := List.append_cancel_left h2
  have h4 : hash (dumps (sortKeys (keyData p₁ m₁ ms₁ ps₁))) =
      hash (dumps (sortKeys (keyData p₂ m₂ ms₂ ps₂))) := congrArg String.mk h3
  exact dumps_inj (hinj _ _ h4)

/-- Computed canonical form of key_data under sort_keys=True. -/
theorem sortKeys_keyData (p m : String) (ms : List Message) (ps : List (String × Json)) :
    sortKeys (keyData p m ms ps) = Json.obj
      [("messages", Json.arr (sortKeysArr (ms.map msgJson))),
       ("model", Json.str m),
       ("params", sortKeys (Json.obj (sortByKey ps))),
       ("provider", Json.str p)] := rfl

/-- Computed canonical form of one message dict under sort_keys=True. -/
theorem sortKeys_msgJson (m : Message) :
    sortKeys (msgJson m) =
      Json.obj [("content", Json.str m.content), ("role", Json.str m.role)] := rfl

/-- Shape of sortKeys on an object (definitional). -/
theorem sortKeys_obj (es : List (String × Json)) :
    sortKeys (Json.obj es) = Json.obj (sortByKey (sortKeysEntries es)) := rfl

/-- sortKeysArr is the elementwise map of sortKeys. -/
theorem sortKeysArr_eq_map : ∀ vs : List Json, sortKeysArr vs = vs.map sortKeys := by
  intro vs
  induction vs with
  | nil => rfl
  | cons v vs ih => rw [sortKeysArr, ih, List.map_cons]

/-- sortKeysEntries is the valuewise map of sortKeys. -/
theorem sortKeysEntries_eq_map : ∀ es : List (String × Json),
    sortKeysEntries es = es.map fun e => (e.1, sortKeys e.2) := by
  intro es
  induction es with
  | nil => rfl
  | cons e es ih => rw [sortKeysEntries, ih, List.map_cons]

/-- sortKeys is the identity on scalar values. -/
theorem sortKeys_scalar {j : Json} (h : jsonScalar j = true) : sortKeys j = j := by
  cases j with
  | arr vs => simp [jsonScalar] at h
  | obj es => simp [jsonScalar] at h
  | null => rfl
  | bool b => rfl
  | int n => rfl
  | str s => rfl

/-- The fully canonicalized entries of an object are a permutation of the
valuewise-canonicalized original entries. -/
theorem sortKeys_obj_perm (L : List (String × Json)) :
    (sortByKey (sortKeysEntries (sortByKey L))).Perm
      (L.map fun e => (e.1, sortKeys e.2)) := by
  rw [sortKeysEntries_eq_map]
  exact (sortByKey_perm _).trans ((sortByKey_perm L).map _)

/-- C8: Sensitivity.  Under the injective-digest idealization of SHA-256,
changing exactly one of the provider, the model, one message's content, or
one (scalar) parameter value changes the key that
RedisCache.get_cache_key returns. -/
theorem C8_sensitivity (hash : List Char → String)
    (hinj : ∀ a b : List Char, hash a = hash b → a = b)
    (provider model : String) (messages : List Message) (params : List (String × Json)) :
    (∀ provider₂, provider₂ ≠ provider →
      getCacheKey hash provider₂ model messages params ≠
        getCacheKey hash provider model messages params) ∧
    (∀ model₂, model₂ ≠ model →
      getCacheKey hash provider model₂ messages params ≠
        getCacheKey hash provider model messages params) ∧
    (∀ pre m post c₂, messages = pre ++ m :: post → c₂ ≠ m.content →
      getCacheKey hash provider model (pre ++ Message.mk m.role c₂ :: post) params ≠
        getCacheKey hash provider model messages params) ∧
    (∀ A k v B v₂, params = A ++ (k, v) :: B → (params.map Prod.fst).Nodup →
      jsonScalar v = true → jsonScalar v₂ = true → v₂ ≠ v →
      getCacheKey hash provider model messages (A ++ (k, v₂) :: B) ≠
        getCacheKey hash provider model messages params) := by
  refine ⟨?_, ?_, ?_, ?_⟩
  · intro provider₂ hne hkey
    have hk := getCacheKey_eq_imp hinj hkey
    rw [sortKeys_keyData, sortKeys_keyData] at hk
    simp only [Json.obj.injEq, List.cons.injEq, Prod.mk.injEq, Json.str.injEq,
      Json.arr.injEq, true_and, and_true] at hk
    exact hne hk
  · intro model₂ hne hkey
    have hk := getCacheKey_eq_imp hinj hkey
    rw [sortKeys_keyData, sortKeys_keyData] at hk
    simp only [Json.obj.injEq, List.cons.injEq, Prod.mk.injEq, Json.str.injEq,
      Json.arr.injEq, true_and, and_true] at hk
    exact hne hk
  · intro pre m post c₂ hmsg hne hkey
    subst hmsg
    have hk := getCacheKey_eq_imp hinj hkey
    rw [sortKeys_keyData, sortKeys_keyData] at hk
    simp only [Json.obj.injEq, List.cons.injEq, Prod.mk.injEq, Json.str.injEq,
      Json.arr.injEq, true_and, and_true] at hk
    have hmsgs := hk
    rw [sortKeysArr_eq_map, sortKeysArr_eq_map, List.map_map, List.map_map] at hmsgs
    simp only [List.map_append, List.map_cons] at hmsgs
    have h2 := List.cons.inj (List.append_cancel_left hmsgs)
    have h3 : sortKeys (msgJson (Message.mk m.role c₂)) = sortKeys (msgJson m) := h2.1
    rw [sortKeys_msgJson, sortKeys_msgJson] at h3
    simp only [Json.obj.injEq, List.cons.injEq, Prod.mk.injEq, Json.str.injEq,
      true_and, and_true] at h3
    exact hne h3
  · intro A k v B v₂ hps hnodup hv hv₂ hne hkey
    subst hps
    have hk := getCacheKey_eq_imp hinj hkey
    rw [sortKeys_keyData, sortKeys_keyData] at hk
    simp only [Json.obj.injEq, List.cons.injEq, Prod.mk.injEq, Json.str.injEq,
      Json.arr.injEq, true_and, and_true] at hk
    have hparams := hk
    rw [sortKeys_obj, sortKeys_obj] at hparams
    simp only [Json.obj.injEq] at hparams
    have hp₁ := sortKeys_obj_perm (A ++ (k, v₂) :: B)
    have hp₂ := sortKeys_obj_perm (A ++ (k, v) :: B)
    rw [hparams] at hp₁
    have hperm := hp₁.symm.trans hp₂
    have hmem : (k, sortKeys v₂) ∈ (A ++ (k, v₂) :: B).map fun e => (e.1, sortKeys e.2) := by
      refine List.mem_map.mpr ⟨(k, v₂), ?_, rfl⟩
      exact List.mem_append_right _ (List.mem_cons_self _ _)
    have hmem₂ := hperm.mem_iff.mp hmem
    rcases List.mem_map.mp hmem₂ with ⟨e, he, hfe⟩
    simp only [Prod.mk.injEq] at hfe
    simp only [List.map_append, List.map_cons] at hnodup
    rcases List.nodup_append.mp hnodup with ⟨hA, hKB, hdisj⟩
    rcases List.nodup_cons.mp hKB with ⟨hkB, -⟩
    rcases List.mem_append.mp he with heA | heKB
    · exact hdisj (List.mem_map_of_mem Prod.fst heA)
        (hfe.1 ▸ List.mem_cons_self k (List.map Prod.fst B))
    · rcases List.mem_cons.mp heKB with heq | heB
      · have h4 : sortKeys v = sortKeys v₂ := by
          rw [← hfe.2, heq]
        rw [sortKeys_scalar hv, sortKeys_scalar hv₂] at h4
        exact hne h4.symm
      · exact hkB (hfe.1 ▸ List.mem_map_of_mem Prod.fst heB)

/-- Witness for C8 at a concrete request: changing the provider changes the
key (the digest is instantiated by the injective String.mk). -/
theorem C8_sensitivity_witness :
    getCacheKey String.mk "vllm" "llama3" [Message.mk "user" "hi"]
        [("max_tokens", Json.int 100)] ≠
      getCacheKey String.mk "ollama" "llama3" [Message.mk "user" "hi"]
        [("max_tokens", Json.int 100)] :=
  (C8_sensitivity String.mk (fun a b h => congrArg String.data h) "ollama" "llama3"
    [Message.mk "user" "hi"] [("max_tokens", Json.int 100)]).1 "vllm" (by decide)

/-- A dumped value is a nonempty character list. -/
theorem dumps_ne_nil (j : Json) : dumps j ≠ [] := by
  intro h
  have := dumps_length_pos j
  rw [h] at this
  simp at this

/-- A dumped value is a non-empty string (so the "if cached:" truthiness
check of RedisCache.get passes for stored responses). -/
theorem dumpsStr_ne_empty (j : Json) : dumpsStr j ≠ "" := by
  intro h
  exact dumps_ne_nil j (congrArg String.data h)

/-- SETEX followed by GET at the same key returns the new value. -/
theorem storeGet_setex_self (s : Store) (k v : String) (t : Int) :
    storeGet (storeSetex s k v t) k = some v := by
  simp [storeGet, storeSetex, List.find?]

/-- C5: Store-read degradation.  RedisCache.get returns a payload exactly
when the transport answered with a present, truthy and deserializable
string; a transport error or an undeserializable payload degrades to None
(the function is total into Option: the caught redis.RedisError and
json.JSONDecodeError never escape). -/
theorem C5_store_read_degradation :
    (∀ o j, redisCacheGet o = some j ↔
      ∃ s, o = ReadOutcome.avail (some s) ∧ loads s = some j) ∧
    redisCacheGet ReadOutcome.down = none ∧
    (∀ s, loads s = none → redisCacheGet (ReadOutcome.avail (some s)) = none) := by
  refine ⟨?_, rfl, ?_⟩
  · intro o j
    constructor
    · intro h
      cases o with
      | down => simp [redisCacheGet, redisGetBody, clientGet] at h
      | avail r =>
        cases r with
        | none => simp [redisCacheGet, redisGetBody, clientGet] at h
        | some s =>
          refine ⟨s, rfl, ?_⟩
          by_cases hs : s = ""
          · subst hs
            simp [redisCacheGet, redisGetBody, clientGet] at h
          · simp only [redisCacheGet, redisGetBody, clientGet, if_neg hs, jsonLoadsE] at h
            cases hl : loads s with
            | none => rw [hl] at h; simp at h
            | some j' => rw [hl] at h; simp at h; rw [h]
    · rintro ⟨s, rfl, hl⟩
      have hs : s ≠ "" := by
        intro h
        subst h
        rw [show loads "" = none from rfl] at hl
        cases hl
      simp only [redisCacheGet, redisGetBody, clientGet, if_neg hs, jsonLoadsE]
      rw [hl]
  · intro s hl
    by_cases hs : s = ""
    · subst hs
      rfl
    · simp only [redisCacheGet, redisGetBody, clientGet, if_neg hs, jsonLoadsE]
      rw [hl]

/-- Witness for C5: a non-JSON stored payload reads as absent. -/
theorem C5_store_read_degradation_witness :
    redisCacheGet (ReadOutcome.avail (some "x")) = none :=
  C5_store_read_degradation.2.2 "x" rfl

/-- C9 counterexample: an explicit negative ttl is falsy-checked only
against 0 by Python's "ttl or self.default_ttl", so -5 is passed to SETEX
as given although it is not strictly positive. -/
theorem C9_counterexample :
    storeGetTtl (redisCacheSet [] "k" Json.null (some (-5)) 300) "k" = some (-5) ∧
      ¬ (0 : Int) < -5 ∧ (-5 : Int) ≠ 300 := by
  refine ⟨?_, by decide, by decide⟩
  rfl

/-- C9 (amended): RedisCache.set stores the default ttl when the ttl
argument is None or 0, and stores any nonzero ttl (positive or negative)
as given; restricted to nonnegative ttls this means exactly the strictly
positive ones pass through. -/
theorem C9_ttl_amended (store : Store) (k : String) (j : Json) (d : Int) :
    storeGetTtl (redisCacheSet store k j none d) k = some d ∧
    storeGetTtl (redisCacheSet store k j (some 0) d) k = some d ∧
    (∀ t : Int, t ≠ 0 → storeGetTtl (redisCacheSet store k j (some t) d) k = some t) := by
  refine ⟨?_, ?_, ?_⟩
  · simp [storeGetTtl, redisCacheSet, storeSetex, List.find?, effectiveTtl]
  · simp [storeGetTtl, redisCacheSet, storeSetex, List.find?, effectiveTtl]
  · intro t ht
    simp [storeGetTtl, redisCacheSet, storeSetex, List.find?, effectiveTtl, ht]

/-- Witness for the amended C9 at concrete inputs. -/
theorem C9_ttl_amended_witness :
    storeGetTtl (redisCacheSet [] "k" Json.null (some (-5)) 300) "k" = some (-5) :=
  (C9_ttl_amended [] "k" Json.null 300).2.2 (-5) (by decide)

/-- C3 counterexample: in the persistence scenario with a zero mean of the
subsequent latencies the reported speedup is the float 0, not
float("inf"). -/
theorem C3_counterexample :
    persistenceAvgCached [0, 0, 0, 0] = 0 ∧
      persistenceSpeedup 1 [0, 0, 0, 0] = PySpeed.val 0 ∧
      PySpeed.val 0 ≠ PySpeed.inf := by
  refine ⟨?_, ?_, by simp⟩
  · norm_num [persistenceAvgCached]
  · norm_num [persistenceSpeedup, persistenceAvgCached]

/-- C3 (amended): the simple two-request scenario reports
first/second as the speedup for a positive second latency and
float("inf") for a zero (or nonpositive) one; the persistence scenario
reports first/mean for a positive mean of the subsequent latencies and the
float 0 (not infinity) for a zero (or nonpositive) mean. -/
theorem C3_speedup_amended :
    (∀ t1 t2 : ℚ, 0 < t2 → simpleTestSpeedup t1 t2 = PySpeed.val (t1 / t2)) ∧
    (∀ t1 t2 : ℚ, t2 ≤ 0 → simpleTestSpeedup t1 t2 = PySpeed.inf) ∧
    (∀ first tail, 0 < persistenceAvgCached tail →
      persistenceSpeedup first tail = PySpeed.val (first / persistenceAvgCached tail)) ∧
    (∀ first tail, persistenceAvgCached tail ≤ 0 →
      persistenceSpeedup first tail = PySpeed.val 0) := by
  refine ⟨?_, ?_, ?_, ?_⟩
  · intro t1 t2 h
    rw [simpleTestSpeedup, if_pos h]
  · intro t1 t2 h
    rw [simpleTestSpeedup, if_neg (by exact not_lt.mpr h)]
  · intro first tail h
    rw [persistenceSpeedup, if_pos h]
  · intro first tail h
    rw [persistenceSpeedup, if_neg (by exact not_lt.mpr h)]

/-- Witness for the amended C3 at concrete latencies. -/
theorem C3_speedup_amended_witness :
    simpleTestSpeedup 3 2 = PySpeed.val (3 / 2) :=
  C3_speedup_amended.1 3 2 (by norm_num)

/-- A bare star matches any string (with enough fuel). -/
theorem globMatchF_star : ∀ f s, s.length + 2 ≤ f → globMatchF f ['*'] s = true := by
  intro f
  induction f with
  | zero => intro s hs; omega
  | succ f ih =>
    intro s hs
    cases s with
    | nil =>
      have hf : 1 ≤ f := by simp at hs; omega
      match f, hf with
      | f'+1, _ => rfl
    | cons c cs =>
      show (globMatchF f [] (c :: cs) ||
        globMatchF f ('*' :: ([] : List Char)) cs) = true
      rw [ih cs (by simp at hs; omega)]
      simp

/-- A star-free prefix pattern followed by a star matches exactly the keys
that start with the prefix. -/
theorem globMatchF_startsWith : ∀ (p : List Char), '*' ∉ p → ∀ f s,
    p.length + s.length + 2 ≤ f → globMatchF f (p ++ ['*']) s = startsList p s := by
  intro p
  induction p with
  | nil =>
    intro _ f s hf
    rw [List.nil_append]
    rw [globMatchF_star f s (by simpa using hf)]
    rfl
  | cons a ps ih =>
    intro hstar f s hf
    have ha : a ≠ '*' := fun h => hstar (h ▸ List.mem_cons_self a ps)
    match f, (by simp at hf; omega : 1 ≤ f) with
    | f'+1, hf' =>
      rw [List.cons_append]
      cases s with
      | nil =>
        show (if a = '*' then globMatchF f' (ps ++ ['*']) [] || false else false) = false
        rw [if_neg ha]
      | cons b cs =>
        show (if a = '*' then
            globMatchF f' (ps ++ ['*']) (b :: cs) || globMatchF f' (a :: (ps ++ ['*'])) cs
          else a == b && globMatchF f' (ps ++ ['*']) cs) = startsList (a :: ps) (b :: cs)
        rw [if_neg ha]
        rw [startsList]
        rw [ih (fun h => hstar (List.mem_cons_of_mem a h)) f' cs
          (by simp at hf ⊢; omega)]

/-- The default clear pattern matches exactly the llm_cache: namespace. -/
theorem globMatch_llmcache (key : String) :
    globMatch "llm_cache:*" key = startsList ("llm_cache:").data key.data := by
  show globMatchF (("llm_cache:*").data.length + key.data.length + 1)
    (("llm_cache:*").data) key.data = _
  have hsplit : ("llm_cache:*").data = ("llm_cache:").data ++ ['*'] := by decide
  rw [hsplit]
  rw [globMatchF_startsWith ("llm_cache:").data (by decide) _ key.data ?_]
  have h2 : (("llm_cache:").data).length = 10 := by decide
  simp only [List.length_append, List.length_singleton, h2]
  omega

/-- Writing entries with fresh, pairwise-distinct keys stacks them in
reverse order on the untouched base store. -/
theorem writeEntries_eq : ∀ (entries : List (String × String × Int)) (base : Store),
    (entries.map fun e => e.1).Nodup →
    (∀ e ∈ entries, ∀ b ∈ base, e.1 ≠ b.1) →
    writeEntries base entries = entries.reverse ++ base := by
  intro entries
  induction entries with
  | nil => intro base _ _; rfl
  | cons e es ih =>
    intro base hnodup hdisj
    rw [List.map_cons] at hnodup
    rcases List.nodup_cons.mp hnodup with ⟨hke, hnodup'⟩
    have hsete : storeSetex base e.1 e.2.1 e.2.2 = e :: base := by
      unfold storeSetex
      rw [List.filter_eq_self.mpr ?_]
      intro b hb
      have := hdisj e (List.mem_cons_self e es) b hb
      simp [bne]
      exact fun hc => absurd hc.symm this
    show writeEntries (storeSetex base e.1 e.2.1 e.2.2) es = (e :: es).reverse ++ base
    rw [hsete]
    rw [ih (e :: base) hnodup' ?_]
    · rw [List.reverse_cons, List.append_assoc, List.singleton_append]
    · intro x hx b hb
      rcases List.mem_cons.mp hb with hb | hb
      · rw [hb]
        intro hc
        exact hke (hc ▸ List.mem_map_of_mem (fun e => e.1) hx)
      · exact hdisj x (List.mem_cons_of_mem e hx) b hb

/-- C7: Invalidation.  After writing K entries with distinct keys in the
llm_cache: namespace over a store holding no namespace keys,
RedisCache.clear with the default pattern reports exactly K deletions and
every written key subsequently misses; with no matching keys (K = 0) the
count is 0 and the store is untouched. -/
theorem C7_invalidation (base : Store) (entries : List (String × String × Int))
    (hbase : ∀ b ∈ base, startsList ("llm_cache:").data b.1.data = false)
    (hentries : ∀ e ∈ entries, startsList ("llm_cache:").data e.1.data = true)
    (hnodup : (entries.map fun e => e.1).Nodup) :
    (redisClear (writeEntries base entries) "llm_cache:*").1 = entries.length ∧
    (∀ e ∈ entries,
      storeGet (redisClear (writeEntries base entries) "llm_cache:*").2 e.1 = none) ∧
    redisClear base "llm_cache:*" = (0, base) := by
  have hdisj : ∀ e ∈ entries, ∀ b ∈ base, e.1 ≠ b.1 := by
    intro e he b hb hc
    have h1 := hentries e he
    have h2 := hbase b hb
    rw [hc, h2] at h1
    cases h1
  have hw := writeEntries_eq entries base hnodup hdisj
  have hfilter_base : base.filter (fun e => globMatch "llm_cache:*" e.1) = [] := by
    rw [List.filter_eq_nil]
    intro b hb
    rw [globMatch_llmcache, hbase b hb]
    simp
  have hfilter_base2 : base.filter (fun e => !globMatch "llm_cache:*" e.1) = base := by
    rw [List.filter_eq_self]
    intro b hb
    rw [globMatch_llmcache, hbase b hb]
    rfl
  have hrev : ∀ e ∈ entries.reverse, startsList ("llm_cache:").data e.1.data = true :=
    fun e he => hentries e (List.mem_reverse.mp he)
  refine ⟨?_, ?_, ?_⟩
  · rw [redisClear, hw]
    rw [List.filter_append, hfilter_base, List.append_nil]
    rw [List.filter_eq_self.mpr ?_]
    · rw [List.length_reverse]
    · intro e he
      rw [globMatch_llmcache, hrev e he]
  · intro e he
    rw [redisClear, hw]
    dsimp only
    rw [List.filter_append, hfilter_base2]
    rw [List.filter_eq_nil.mpr ?_, List.nil_append]
    · rw [storeGet]
      rw [List.find?_eq_none.mpr ?_]
      · rfl
      · intro b hb
        have hne := hdisj e he b hb
        simp only [beq_iff_eq]
        exact fun hc => hne hc.symm
    · intro x hx
      rw [globMatch_llmcache, hrev x hx]
      simp
  · rw [redisClear, hfilter_base, hfilter_base2]
    rfl

/-- Witness for C7 with one written entry and the empty base store. -/
theorem C7_invalidation_witness :
    (redisClear (writeEntries [] [("llm_cache:a", "v", 300)]) "llm_cache:*").1 = 1 ∧
    (∀ e ∈ [("llm_cache:a", "v", (300 : Int))],
      storeGet (redisClear (writeEntries [] [("llm_cache:a", "v", 300)]) "llm_cache:*").2
        e.1 = none) ∧
    redisClear [] "llm_cache:*" = (0, []) :=
  C7_invalidation [] [("llm_cache:a", "v", 300)] (by simp) (by decide) (by simp)

/-- Shape of make_cached_chat_request with use_cache=true (definitional). -/
theorem makeCachedChatRequest_useCache {ε : Type} (hash : List Char → String)
    (d : Int) (store : Store) (pc : ProviderConfig) (msg : String)
    (compute : Except ε Json) :
    makeCachedChatRequest hash d store pc msg true compute =
      (match redisGet store (getCacheKey hash pc.provider pc.model
          [Message.mk "user" msg] [("max_tokens", Json.int 100)]) with
       | some cached =>
         if jsonTruthy cached then
           match extractContent cached with
           | .ok content => ⟨.ok (content, true), store, 0⟩
           | .error e => ⟨.error (.pyErr e), store, 0⟩
         else
           makeCachedMiss store (getCacheKey hash pc.provider pc.model
             [Message.mk "user" msg] [("max_tokens", Json.int 100)]) d true compute
       | none =>
         makeCachedMiss store (getCacheKey hash pc.provider pc.model
           [Message.mk "user" msg] [("max_tokens", Json.int 100)]) d true compute) := rfl

/-- Shape of make_cached_chat_request with use_cache=false (definitional):
the store is never read and the call goes straight to the miss path. -/
theorem makeCachedChatRequest_noCache {ε : Type} (hash : List Char → String)
    (d : Int) (store : Store) (pc : ProviderConfig) (msg : String)
    (compute : Except ε Json) :
    makeCachedChatRequest hash d store pc msg false compute =
      makeCachedMiss store (getCacheKey hash pc.provider pc.model
        [Message.mk "user" msg] [("max_tokens", Json.int 100)]) d false compute := rfl

/-- The miss path on a failing upstream call (definitional). -/
theorem makeCachedMiss_error {ε : Type} (store : Store) (key : String) (d : Int)
    (useCache : Bool) (e : ε) :
    makeCachedMiss store key d useCache (.error e : Except ε Json) =
      ⟨.error (.computeErr e), store, 1⟩ := rfl

/-- The miss path on a successful upstream call with extractable content. -/
theorem makeCachedMiss_ok {ε : Type} (store : Store) (key : String) (d : Int)
    (useCache : Bool) (resp : Json) (content : String)
    (h : extractContent resp = .ok content) :
    makeCachedMiss store key d useCache (.ok resp : Except ε Json) =
      ⟨.ok (content, false),
       if useCache then redisCacheSet store key resp none d else store, 1⟩ := by
  unfold makeCachedMiss
  dsimp only
  rw [h]

/-- A cache read misses on a key the store does not hold. -/
theorem redisGet_none {store : Store} {k : String} (h : storeGet store k = none) :
    redisGet store k = none := by
  unfold redisGet redisCacheGet redisGetBody clientGet
  rw [h]

/-- A cache read of a stored dumps roundtrips to the original value. -/
theorem redisGet_dumps {store : Store} {k : String} {j : Json}
    (h : storeGet store k = some (dumpsStr j)) : redisGet store k = some j := by
  unfold redisGet redisCacheGet redisGetBody clientGet
  rw [h]
  dsimp only
  rw [if_neg (dumpsStr_ne_empty j)]
  unfold jsonLoadsE
  rw [loads_dumps]

/-- A response whose content extraction succeeds is a truthy JSON value
(it is a dict holding at least the choices entry). -/
theorem extractContent_truthy {j : Json} {c : String} (h : extractContent j = .ok c) :
    jsonTruthy j = true := by
  cases j with
  | obj es =>
    cases es with
    | nil => simp [extractContent, getItemField] at h
    | cons e es' => simp [jsonTruthy]
  | null => simp [extractContent, getItemField] at h
  | bool b => simp [extractContent, getItemField] at h
  | int n => simp [extractContent, getItemField] at h
  | str s => simp [extractContent, getItemField] at h
  | arr vs => simp [extractContent, getItemField] at h

/-- A cached call on a fresh key computes, returns hit=false, and writes
the response back. -/
theorem makeCached_fresh {ε : Type} (hash : List Char → String) (d : Int) (store : Store)
    (pc : ProviderConfig) (msg : String) (resp : Json) (content : String)
    (hfresh : storeGet store (getCacheKey hash pc.provider pc.model
      [Message.mk "user" msg] [("max_tokens", Json.int 100)]) = none)
    (hex : extractContent resp = .ok content) :
    makeCachedChatRequest hash d store pc msg true (.ok resp : Except ε Json) =
      ⟨.ok (content, false),
       redisCacheSet store (getCacheKey hash pc.provider pc.model
         [Message.mk "user" msg] [("max_tokens", Json.int 100)]) resp none d, 1⟩ := by
  rw [makeCachedChatRequest_useCache, redisGet_none hfresh]
  dsimp only
  rw [makeCachedMiss_ok _ _ _ _ _ _ hex]
  rfl

/-- A cached call on a key holding a stored response returns it with
hit=true and does not compute. -/
theorem makeCached_hit {ε : Type} (hash : List Char → String) (d : Int) (store : Store)
    (pc : ProviderConfig) (msg : String) (resp : Json) (content : String)
    (compute : Except ε Json)
    (hstore : storeGet store (getCacheKey hash pc.provider pc.model
      [Message.mk "user" msg] [("max_tokens", Json.int 100)]) = some (dumpsStr resp))
    (hex : extractContent resp = .ok content) :
    makeCachedChatRequest hash d store pc msg true compute =
      ⟨.ok (content, true), store, 0⟩ := by
  rw [makeCachedChatRequest_useCache, redisGet_dumps hstore]
  dsimp only
  rw [if_pos (extractContent_truthy hex), hex]

/-- C2: Miss-then-hit.  On a fresh key a first cached call returns
hit=false and runs the upstream call once; an immediate second cached call
with the same descriptor (and an arbitrary pending upstream computation)
returns hit=true with the same content and does not run the upstream call,
so the upstream call runs exactly once across the two calls. -/
theorem C2_miss_then_hit {ε₁ ε₂ : Type} (hash : List Char → String) (defaultTtl : Int)
    (store : Store) (pc : ProviderConfig) (message : String)
    (resp : Json) (content : String) (compute₂ : Except ε₂ Json)
    (hfresh : storeGet store (getCacheKey hash pc.provider pc.model
      [Message.mk "user" message] [("max_tokens", Json.int 100)]) = none)
    (hextract : extractContent resp = .ok content) :
    (makeCachedChatRequest hash defaultTtl store pc message true
      (.ok resp : Except ε₁ Json)).result = .ok (content, false) ∧
    (makeCachedChatRequest hash defaultTtl store pc message true
      (.ok resp : Except ε₁ Json)).computeCalls = 1 ∧
    (makeCachedChatRequest hash defaultTtl
      (makeCachedChatRequest hash defaultTtl store pc message true
        (.ok resp : Except ε₁ Json)).store pc message true compute₂).result =
      .ok (content, true) ∧
    (makeCachedChatRequest hash defaultTtl
      (makeCachedChatRequest hash defaultTtl store pc message true
        (.ok resp : Except ε₁ Json)).store pc message true compute₂).computeCalls = 0 := by
  have h1 := makeCached_fresh (ε := ε₁) hash defaultTtl store pc message resp content
    hfresh hextract
  have h2 : storeGet (makeCachedChatRequest hash defaultTtl store pc message true
      (.ok resp : Except ε₁ Json)).store
      (getCacheKey hash pc.provider pc.model
        [Message.mk "user" message] [("max_tokens", Json.int 100)]) =
      some (dumpsStr resp) := by
    rw [h1]
    exact storeGet_setex_self _ _ _ _
  have h3 := makeCached_hit hash defaultTtl _ pc message resp content compute₂ h2 hextract
  exact ⟨by rw [h1], by rw [h1], by rw [h3], by rw [h3]⟩

/-- Witness for C2 at a concrete fresh store and well-formed response. -/
theorem C2_miss_then_hit_witness :
    (makeCachedChatRequest String.mk 300 []
      (ProviderConfig.mk "ollama" "http://portkey-gateway-ollama:11434" "llama3")
      "hi" true (.ok (Json.obj [("choices", Json.arr [Json.obj [("message",
        Json.obj [("content", Json.str "pong")])]])]) : Except Unit Json)).result =
      .ok ("pong", false) ∧
    (makeCachedChatRequest String.mk 300 []
      (ProviderConfig.mk "ollama" "http://portkey-gateway-ollama:11434" "llama3")
      "hi" true (.ok (Json.obj [("choices", Json.arr [Json.obj [("message",
        Json.obj [("content", Json.str "pong")])]])]) : Except Unit Json)).computeCalls = 1 ∧
    (makeCachedChatRequest String.mk 300
      (makeCachedChatRequest String.mk 300 []
        (ProviderConfig.mk "ollama" "http://portkey-gateway-ollama:11434" "llama3")
        "hi" true (.ok (Json.obj [("choices", Json.arr [Json.obj [("message",
          Json.obj [("content", Json.str "pong")])]])]) : Except Unit Json)).store
      (ProviderConfig.mk "ollama" "http://portkey-gateway-ollama:11434" "llama3")
      "hi" true (.error () : Except Unit Json)).result = .ok ("pong", true) ∧
    (makeCachedChatRequest String.mk 300
      (makeCachedChatRequest String.mk 300 []
        (ProviderConfig.mk "ollama" "http://portkey-gateway-ollama:11434" "llama3")
        "hi" true (.ok (Json.obj [("choices", Json.arr [Json.obj [("message",
          Json.obj [("content", Json.str "pong")])]])]) : Except Unit Json)).store
      (ProviderConfig.mk "ollama" "http://portkey-gateway-ollama:11434" "llama3")
      "hi" true (.error () : Except Unit Json)).computeCalls = 0 :=
  C2_miss_then_hit String.mk 300 []
    (ProviderConfig.mk "ollama" "http://portkey-gateway-ollama:11434" "llama3")
    "hi" (Json.obj [("choices", Json.arr [Json.obj [("message",
      Json.obj [("content", Json.str "pong")])]])]) "pong" (.error () : Except Unit Json)
    rfl rfl

/-- C4: Compute-failure atomicity.  A cached call that misses and whose
upstream computation raises propagates that very exception and leaves the
store untouched; the upstream call ran exactly once. -/
theorem C4_compute_failure_atomicity {ε : Type} (hash : List Char → String)
    (defaultTtl : Int) (store : Store) (pc : ProviderConfig) (message : String) (e : ε)
    (hmiss : redisGet store (getCacheKey hash pc.provider pc.model
      [Message.mk "user" message] [("max_tokens", Json.int 100)]) = none) :
    (makeCachedChatRequest hash defaultTtl store pc message true
      (.error e : Except ε Json)).result = .error (.computeErr e) ∧
    (makeCachedChatRequest hash defaultTtl store pc message true
      (.error e : Except ε Json)).store = store ∧
    (makeCachedChatRequest hash defaultTtl store pc message true
      (.error e : Except ε Json)).computeCalls = 1 := by
  rw [makeCachedChatRequest_useCache, hmiss]
  exact ⟨rfl, rfl, rfl⟩

/-- Witness for C4 on the empty store. -/
theorem C4_compute_failure_atomicity_witness :
    (makeCachedChatRequest String.mk 300 []
      (ProviderConfig.mk "ollama" "http://portkey-gateway-ollama:11434" "llama3")
      "hi" true (.error () : Except Unit Json)).result = .error (.computeErr ()) ∧
    (makeCachedChatRequest String.mk 300 []
      (ProviderConfig.mk "ollama" "http://portkey-gateway-ollama:11434" "llama3")
      "hi" true (.error () : Except Unit Json)).store = [] ∧
    (makeCachedChatRequest String.mk 300 []
      (ProviderConfig.mk "ollama" "http://portkey-gateway-ollama:11434" "llama3")
      "hi" true (.error () : Except Unit Json)).computeCalls = 1 :=
  C4_compute_failure_atomicity String.mk 300 []
    (ProviderConfig.mk "ollama" "http://portkey-gateway-ollama:11434" "llama3")
    "hi" () rfl

/-- C6: Bypass.  With use_cache=false the upstream call always runs, the
store is never written (it is returned unchanged), the result is
independent of the prior store contents (no store read), and a returned
hit flag is false. -/
theorem C6_bypass {ε : Type} (hash : List Char → String) (defaultTtl : Int)
    (store : Store) (pc : ProviderConfig) (message : String) (compute : Except ε Json) :
    (makeCachedChatRequest hash defaultTtl store pc message false compute).store = store ∧
    (makeCachedChatRequest hash defaultTtl store pc message false compute).computeCalls = 1 ∧
    (∀ c h, (makeCachedChatRequest hash defaultTtl store pc message false compute).result =
      .ok (c, h) → h = false) ∧
    (∀ store₂ : Store,
      (makeCachedChatRequest hash defaultTtl store₂ pc message false compute).result =
        (makeCachedChatRequest hash defaultTtl store pc message false compute).result) := by
  rw [makeCachedChatRequest_noCache]
  cases compute with
  | error e =>
    refine ⟨rfl, rfl, ?_, ?_⟩
    · intro c h hres
      rw [makeCachedMiss_error] at hres
      simp at hres
    · intro store₂
      rw [makeCachedChatRequest_noCache]
      rfl
  | ok resp =>
    cases hex : extractContent resp with
    | error pe =>
      have hm : ∀ st : Store, makeCachedMiss st (getCacheKey hash pc.provider pc.model
          [Message.mk "user" message] [("max_tokens", Json.int 100)]) defaultTtl false
          (.ok resp : Except ε Json) = ⟨.error (.pyErr pe), st, 1⟩ := by
        intro st
        unfold makeCachedMiss
        dsimp only
        rw [hex]
      refine ⟨by rw [hm], by rw [hm], ?_, ?_⟩
      · intro c h hres
        rw [hm] at hres
        simp at hres
      · intro store₂
        rw [makeCachedChatRequest_noCache, hm, hm]
    | ok c =>
      have hm : ∀ st : Store, makeCachedMiss st (getCacheKey hash pc.provider pc.model
          [Message.mk "user" message] [("max_tokens", Json.int 100)]) defaultTtl false
          (.ok resp : Except ε Json) = ⟨.ok (c, false), st, 1⟩ := by
        intro st
        rw [makeCachedMiss_ok st _ defaultTtl false resp c hex]
        rfl
      refine ⟨by rw [hm], by rw [hm], ?_, ?_⟩
      · intro c₂ h hres
        rw [hm] at hres
        simp at hres
        exact hres.2
      · intro store₂
        rw [makeCachedChatRequest_noCache, hm, hm]

/-- Witness for C6 at a concrete bypassed call. -/
theorem C6_bypass_witness :
    (makeCachedChatRequest String.mk 300
      [("k", "v", 1)]
      (ProviderConfig.mk "ollama" "http://portkey-gateway-ollama:11434" "llama3")
      "hi" false (.error () : Except Unit Json)).store = [("k", "v", 1)] ∧
    (makeCachedChatRequest String.mk 300
      [("k", "v", 1)]
      (ProviderConfig.mk "ollama" "http://portkey-gateway-ollama:11434" "llama3")
      "hi" false (.error () : Except Unit Json)).computeCalls = 1 :=
  ⟨(C6_bypass String.mk 300 [("k", "v", 1)]
      (ProviderConfig.mk "ollama" "http://portkey-gateway-ollama:11434" "llama3")
      "hi" (.error () : Except Unit Json)).1,
   (C6_bypass String.mk 300 [("k", "v", 1)]
      (ProviderConfig.mk "ollama" "http://portkey-gateway-ollama:11434" "llama3")
      "hi" (.error () : Except Unit Json)).2.1⟩

/-- C10: A stored payload that is valid JSON (and truthy) but lacks the
choices[0].message.content structure makes the hit path raise a KeyError
to the caller instead of treating the entry as absent and recomputing: the
upstream call does not run. -/
theorem C10_hit_path_raises :
    (makeCachedChatRequest String.mk 300
      [(getCacheKey String.mk "ollama" "llama3" [Message.mk "user" "hi"]
          [("max_tokens", Json.int 100)],
        dumpsStr (Json.obj [("a", Json.int 1)]), 300)]
      (ProviderConfig.mk "ollama" "http://portkey-gateway-ollama:11434" "llama3")
      "hi" true (.ok Json.null : Except Unit Json)).result =
      .error (.pyErr .keyError) ∧
    (makeCachedChatRequest String.mk 300
      [(getCacheKey String.mk "ollama" "llama3" [Message.mk "user" "hi"]
          [("max_tokens", Json.int 100)],
        dumpsStr (Json.obj [("a", Json.int 1)]), 300)]
      (ProviderConfig.mk "ollama" "http://portkey-gateway-ollama:11434" "llama3")
      "hi" true (.ok Json.null : Except Unit Json)).computeCalls = 0 :=
  ⟨rfl, rfl⟩
